import Mathlib

/-!
# dicomviewer: pixel remapping, frame bounds, image materialisation, cached file, tag queries

A shallow embedding of `src/dicom/util.go`, `src/dicom/file.go` and the tag parsing
of `src/http/dicomfiles.go`.

Go's `int` is the 64-bit two's-complement integer: a value is an `Int` in
`[-2^63, 2^63)` and every arithmetic result is reduced by `wrapInt`.  A run-time
panic is the `Except.error` branch of `Except Panic`; a function with the results
`(value, error)` returns them as a pair or as `Except GoError`.
-/

namespace Dicom

/-! ## Machine integers and panics -/

/-- Run-time panics that can unwind out of the embedded functions. -/
inductive Panic where
  /-- Go run-time error "integer divide by zero". -/
  | divideByZero
  /-- Go run-time error "index out of range". -/
  | indexOutOfRange
  /-- Panic of `image.NewGray`: "Rectangle has huge or negative dimensions". -/
  | hugeOrNegativeDimensions
  /-- Go run-time panic "makeslice: len out of range". -/
  | makesliceLenOutOfRange
  /-- Panic raised inside the decoder's `MustGetPixelDataInfo`. -/
  | notPixelData
deriving DecidableEq, Repr

deriving instance DecidableEq for Except

/-- The values of Go's `int`: `-2^63 ≤ x < 2^63`. -/
def inInt (x : Int) : Prop := -9223372036854775808 ≤ x ∧ x < 9223372036854775808

instance (x : Int) : Decidable (inInt x) := by unfold inInt; infer_instance

/-- Two's-complement reduction of an integer result to Go's `int`. -/
def wrapInt (x : Int) : Int :=
  (x + 9223372036854775808) % 18446744073709551616 - 9223372036854775808

/-- Go's `a / b` on `int`: truncates toward zero, panics when `b = 0`. -/
def goDiv (a b : Int) : Except Panic Int :=
  if b = 0 then .error .divideByZero else .ok (wrapInt (a.tdiv b))

/-- Go's `a % b` on `int`: sign of the dividend, panics when `b = 0`. -/
def goMod (a b : Int) : Except Panic Int :=
  if b = 0 then .error .divideByZero else .ok (wrapInt (a.tmod b))

/-- Go's conversion `uint8(v)` of an `int`: the low eight bits. -/
def toUint8 (v : Int) : Nat := (v % 256).toNat

/-! ## `src/dicom/util.go` -/

/-- The struct `domain1D`: a one-dimensional domain. -/
structure domain1D where
  min : Int
  max : Int
deriving DecidableEq, Repr

/-- The function `targetPixelDomain`: default target domain for a greyscale image. -/
def targetPixelDomain : domain1D := { min := 0, max := 255 }

/-- The decoder's `frame.NativeFrame`: `Data[i]` holds the channel values of
pixel `i`. -/
structure NativeFrame where
  Data : List (List Int)
  Rows : Int
  Cols : Int
deriving DecidableEq, Repr

/-- One iteration of the loop of `findBounds` on the pair `(min, max)`. -/
def findBoundsStep (acc : Int × Int) (dataRow : List Int) : Int × Int :=
  match dataRow with
  | [] => acc
  | val :: _ =>
    let min := if val < acc.1 then val else acc.1
    let max := if val > acc.2 then val else acc.2
    (min, max)

/-- The function `findBounds`: the domain that bounds the channel-0 values of
the frame. -/
def findBounds (frame : NativeFrame) : domain1D :=
  match frame.Data with
  | [] => { min := 0, max := 0 }
  | [] :: _ => { min := 0, max := 0 }
  | (v :: _) :: _ =>
    let r := frame.Data.foldl findBoundsStep (v, v)
    { min := r.1, max := r.2 }

/-- The function `mapValue`: maps a value within a source domain to a target
domain. -/
def mapValue (value : Int) (sourceDomain targetDomain : domain1D) : Except Panic Int :=
  let value := if value < sourceDomain.min then sourceDomain.min else value
  let value := if value > sourceDomain.max then sourceDomain.max else value
  let targetDomainRange := wrapInt (targetDomain.max - targetDomain.min)
  let sourceDomainRange := wrapInt (sourceDomain.max - sourceDomain.min)
  match goDiv (wrapInt (targetDomainRange * wrapInt (value - sourceDomain.min)))
      sourceDomainRange with
  | .error p => .error p
  | .ok q => .ok (wrapInt (targetDomain.min + q))

/-! ### Go's standard `image` package, as far as `generateImage` uses it -/

/-- Go's `image.Point`. -/
structure Point where
  X : Int
  Y : Int
deriving DecidableEq, Repr

/-- Go's `image.Rectangle`: the points with `Min.X ≤ X < Max.X`, `Min.Y ≤ Y < Max.Y`. -/
structure Rectangle where
  Min : Point
  Max : Point
deriving DecidableEq, Repr

/-- Go's `image.Rect`: the coordinates are swapped where needed so that the
rectangle is well-formed. -/
def Rect (x0 y0 x1 y1 : Int) : Rectangle :=
  let xs := if x0 > x1 then (x1, x0) else (x0, x1)
  let ys := if y0 > y1 then (y1, y0) else (y0, y1)
  { Min := { X := xs.1, Y := ys.1 }, Max := { X := xs.2, Y := ys.2 } }

/-- Go's `Rectangle.Dx`: the width. -/
def Rectangle.Dx (r : Rectangle) : Int := wrapInt (r.Max.X - r.Min.X)

/-- Go's `Rectangle.Dy`: the height. -/
def Rectangle.Dy (r : Rectangle) : Int := wrapInt (r.Max.Y - r.Min.Y)

/-- Go's `Point.In`: whether the point lies in the rectangle. -/
def Point.In (p : Point) (r : Rectangle) : Bool :=
  decide (r.Min.X ≤ p.X) && decide (p.X < r.Max.X) &&
    decide (r.Min.Y ≤ p.Y) && decide (p.Y < r.Max.Y)

/-- Go's `image.mul3NonNeg`: the product `x*y*z`, or `-1` when an argument is
negative or a product leaves the non-negative range of `int`. -/
def mul3NonNeg (x y z : Int) : Int :=
  if x < 0 ∨ y < 0 ∨ z < 0 then -1
  else if x * y ≥ 18446744073709551616 then -1
  else if x * y * z ≥ 18446744073709551616 then -1
  else if x * y * z ≥ 9223372036854775808 then -1
  else x * y * z

/-- Go's `image.Gray`: an 8-bit greyscale raster; `Pix` is the row-major byte
buffer, `Stride` the distance in bytes between vertically adjacent pixels. -/
structure Gray where
  Pix : List Nat
  Stride : Int
  Rect : Rectangle
deriving DecidableEq, Repr

/-- The allocation limit `maxAlloc` of the Go run time on 64-bit targets: `2^48`
bytes. -/
def maxAlloc : Int := 281474976710656

/-- Go's `image.NewGray`: a blank (all zero) raster with the given bounds.  The
buffer is `make([]uint8, totalLength)`, which panics above the allocation limit. -/
def NewGray (r : Rectangle) : Except Panic Gray :=
  let totalLength := mul3NonNeg 1 r.Dx r.Dy
  if totalLength < 0 then .error .hugeOrNegativeDimensions
  else if totalLength > maxAlloc then .error .makesliceLenOutOfRange
  else .ok { Pix := List.replicate totalLength.toNat 0, Stride := wrapInt (1 * r.Dx), Rect := r }

/-- Go's `Gray.PixOffset`: the index in `Pix` of the pixel at `(x, y)`. -/
def Gray.PixOffset (p : Gray) (x y : Int) : Int :=
  wrapInt (wrapInt (wrapInt (y - p.Rect.Min.Y) * p.Stride) + wrapInt (wrapInt (x - p.Rect.Min.X) * 1))

/-- Go's `Gray.SetGray` with the colour `color.Gray{Y: c}`: a point outside the
bounds is ignored. -/
def Gray.SetGray (p : Gray) (x y : Int) (c : Nat) : Except Panic Gray :=
  if !(Point.In { X := x, Y := y } p.Rect) then .ok p
  else
    let i := p.PixOffset x y
    if 0 ≤ i ∧ i < p.Pix.length then .ok { p with Pix := p.Pix.set i.toNat c }
    else .error .indexOutOfRange

/-! ### The decoder's data types (`github.com/suyashkumar/dicom`) -/

/-- The decoder's `tag.Tag`: a 16-bit group and a 16-bit element. -/
structure Tag where
  Group : Fin 65536
  Element : Fin 65536
deriving DecidableEq, Repr

/-- The decoder's `tag.PixelData`, the tag `(7fe0,0010)`. -/
def Tag.PixelData : Tag := { Group := 0x7FE0, Element := 0x0010 }

/-- The decoder's `frame.Frame`, of which `generateImage` reads `NativeData`
(an encapsulated frame has the zero `NativeFrame`). -/
structure Frame where
  NativeData : NativeFrame
deriving DecidableEq, Repr

/-- The decoder's `dicom.PixelDataInfo`: the frames of a pixel-data payload. -/
structure PixelDataInfo where
  Frames : List Frame
deriving DecidableEq, Repr

/-- The decoder's `dicom.Value`: a pixel-data payload, or a value of another
kind (strings, integers, bytes, sequences), kept as text. -/
inductive Value where
  | pixelData (info : PixelDataInfo)
  | other (text : String)
deriving DecidableEq, Repr

/-- The decoder's `dicom.Element`; `Value` is an interface and may be nil. -/
structure Element where
  Tag : Tag
  Value : Option Value
deriving DecidableEq, Repr

/-- The decoder's `dicom.Dataset`. -/
structure Dataset where
  Elements : List Element
deriving DecidableEq, Repr

/-- Error values returned by the embedded functions. -/
inductive GoError where
  /-- The decoder's `ErrorElementNotFound`. -/
  | elementNotFound
  /-- The error "failed to get pixel data info for DICOM file". -/
  | pixelDataInfo
  /-- The error "file does not contain any images". -/
  | noImages
  /-- An error returned by `dicom.Parse`. -/
  | parse (msg : String)
  /-- The error "malformed tag" of `parseTag`. -/
  | malformedTag
  /-- The error `strconv.ErrSyntax` of `strconv.ParseInt`. -/
  | numSyntax
  /-- The error `strconv.ErrRange` of `strconv.ParseInt`. -/
  | numRange
deriving DecidableEq, Repr

/-- Modelled from the spec: the decoder's `find_element_by_tag(tag) -> Element |
not-found` (section 6), `Dataset.FindElementByTag` of the decoder library, which is
not part of this repository: the first element of the dataset with that tag. -/
def Dataset.FindElementByTag (d : Dataset) (t : Tag) : Except GoError Element :=
  match d.Elements.find? (fun e => decide (e.Tag = t)) with
  | some e => .ok e
  | none => .error .elementNotFound

/-- Modelled from the spec: the decoder's pixel-data interpretation of an
element's value (section 6), `dicom.MustGetPixelDataInfo` of the decoder library,
which is not part of this repository: it panics unless the value is a pixel-data
payload. -/
def MustGetPixelDataInfo (v : Option Value) : Except Panic PixelDataInfo :=
  match v with
  | some (.pixelData info) => .ok info
  | _ => .error .notPixelData

/-- The body of the pixel loop of `generateImage`, from index `idx` on, over the
rows `Data[idx:]` still to be written. -/
def pixelLoop (shouldRemap : Bool) (pixelSourceDomain pixelTargetDomain : domain1D)
    (cols : Int) : List (List Int) → Int → Gray → Except Panic Gray
  | [], _, outImage => .ok outImage
  | dataRow :: rest, idx, outImage =>
    match goMod idx cols with
    | .error p => .error p
    | .ok x =>
      match goDiv idx cols with
      | .error p => .error p
      | .ok y =>
        let pixelValue := match dataRow with
          | [] => 0
          | v :: _ => v
        let mapped : Except Panic Int :=
          if shouldRemap then mapValue pixelValue pixelSourceDomain pixelTargetDomain
          else .ok pixelValue
        match mapped with
        | .error p => .error p
        | .ok mappedPixelValue =>
          match outImage.SetGray x y (toUint8 mappedPixelValue) with
          | .error p => .error p
          | .ok img => pixelLoop shouldRemap pixelSourceDomain pixelTargetDomain cols rest
              (wrapInt (idx + 1)) img

/-- The body of the frame loop of `generateImage` for one frame. -/
def renderFrame (shouldRemap : Bool) (fr : Frame) : Except Panic Gray :=
  let pixelSourceDomain := findBounds fr.NativeData
  match NewGray (Rect 0 0 fr.NativeData.Cols fr.NativeData.Rows) with
  | .error p => .error p
  | .ok outImage =>
    pixelLoop shouldRemap pixelSourceDomain targetPixelDomain fr.NativeData.Cols
      fr.NativeData.Data 0 outImage

/-- The frame loop of `generateImage`: `images` grows by one raster per frame. -/
def renderFrames (shouldRemap : Bool) : List Frame → List Gray → Except Panic (List Gray)
  | [], images => .ok images
  | fr :: rest, images =>
    match renderFrame shouldRemap fr with
    | .error p => .error p
    | .ok outImage => renderFrames shouldRemap rest (images ++ [outImage])

/-- The function `generateImage`: the pair `(images, err)` it returns, or the
panic that unwinds out of it.  The panic of `MustGetPixelDataInfo` is recovered
and turned into an error. -/
def generateImage (dataset : Dataset) (shouldRemap : Bool) :
    Except Panic (List Gray × Option GoError) :=
  match dataset.FindElementByTag Tag.PixelData with
  | .error err => .ok ([], some err)
  | .ok pixelDataElement =>
    match MustGetPixelDataInfo pixelDataElement.Value with
    | .error _ => .ok ([], some .pixelDataInfo)
    | .ok pixelDataInfo =>
      match renderFrames shouldRemap pixelDataInfo.Frames [] with
      | .error p => .error p
      | .ok images => .ok (images, none)

/-! ## `src/dicom/file.go` -/

/-- The digit of `fmt`'s verb `%x` for a value below 16. -/
def hexDigit (n : Nat) : Char :=
  if n < 10 then Char.ofNat ('0'.toNat + n) else Char.ofNat ('a'.toNat + (n - 10))

/-- The text `fmt.Sprintf("%04x", n)` of a 16-bit value: four hexadecimal digits. -/
def hex4 (n : Nat) : List Char :=
  [hexDigit (n / 4096 % 16), hexDigit (n / 256 % 16), hexDigit (n / 16 % 16), hexDigit (n % 16)]

/-- Modelled from the spec: the canonical string form of a tag (section 4.4),
`Tag.String` of the decoder library, which is not part of this repository:
`fmt.Sprintf("(%04x,%04x)", t.Group, t.Element)`. -/
def Tag.String (t : Tag) : String :=
  String.mk (['('] ++ hex4 t.Group.val ++ [','] ++ hex4 t.Element.val ++ [')'])

/-- The read-through cache of a `File`. -/
structure FileCache where
  dataset : Option Dataset
  image : Option Gray
deriving DecidableEq, Repr

/-- The struct `File`.  Its field `file io.ReadSeeker` is a handle to a stream
that lives outside the struct, in `World.stream`; a copy of the struct shares the
stream and has its own `cache`. -/
structure File where
  ID : String
  size : Int
  cache : FileCache
deriving DecidableEq, Repr

/-- The function `NewFile`: a file with empty cache slots. -/
def NewFile (id : String) (size : Int) : File :=
  { ID := id, size := size, cache := { dataset := none, image := none } }

/-- The state outside a `File` value: the bytes still unread in the stream
behind `File.file`, and the number of calls of the decoder `dicom.Parse` so far. -/
structure World where
  stream : List Nat
  parseCalls : Nat
deriving DecidableEq, Repr

/-- The external decoder `dicom.Parse(in, bytesToRead, nil)`: from the unread
bytes and `bytesToRead` it gives the bytes left unread and a dataset or an error. -/
structure Decoder where
  Parse : List Nat → Int → List Nat × Except GoError Dataset

/-- The body of the method `DataSet`, running on its receiver variable `d`;
returns the final value of `d` next to the world and the results. -/
def File.DataSetBody (dec : Decoder) (d : File) (w : World) :
    File × World × Except GoError Dataset :=
  match d.cache.dataset with
  | some dataset => (d, w, .ok dataset)
  | none =>
    match dec.Parse w.stream d.size with
    | (rest, .error err) =>
      (d, { stream := rest, parseCalls := w.parseCalls + 1 }, .error err)
    | (rest, .ok data) =>
      ({ d with cache := { d.cache with dataset := some data } },
        { stream := rest, parseCalls := w.parseCalls + 1 }, .ok data)

/-- A call `f.DataSet()`.  The method has a value receiver, `func (d File)
DataSet()`: the body runs on a copy `d` of `f`, the copy is dropped on return and
`f` itself is left as it was. -/
def File.DataSet (dec : Decoder) (f : File) (w : World) : World × Except GoError Dataset :=
  ((File.DataSetBody dec f w).2.1, (File.DataSetBody dec f w).2.2)

/-- Two calls of `DataSet()` in a row on the same `File` value `f`: the world
after them and both results. -/
def File.DataSetTwice (dec : Decoder) (f : File) (w : World) :
    World × Except GoError Dataset × Except GoError Dataset :=
  let r1 := f.DataSet dec w
  let r2 := f.DataSet dec r1.1
  (r2.1, r1.2, r2.2)

/-- A Go `map[string]V` as the list of its entries, one per key. -/
abbrev GoMap (V : Type) := List (String × V)

/-- The assignment `m[k] = v`. -/
def GoMap.set {V : Type} (m : GoMap V) (k : String) (v : V) : GoMap V :=
  match m with
  | [] => [(k, v)]
  | (k', v') :: rest => if k' = k then (k, v) :: rest else (k', v') :: GoMap.set rest k v

/-- The lookup `v, ok := m[k]`. -/
def GoMap.get? {V : Type} (m : GoMap V) (k : String) : Option V :=
  match m with
  | [] => none
  | (k', v') :: rest => if k' = k then some v' else GoMap.get? rest k

/-- The keys of the map. -/
def GoMap.keys {V : Type} (m : GoMap V) : List String := m.map Prod.fst

/-- The type `DICOMElementsLookup`: DICOM tags to their elements; a nil element
pointer is `none`. -/
abbrev DICOMElementsLookup := GoMap (Option Element)

/-- One turn of the loop of `FindElements`: the error of the lookup is ignored
and the element, nil when not found, is stored under the tag's string. -/
def findElementsStep (dataSet : Dataset) (elementsByTag : DICOMElementsLookup) (tag : Tag) :
    DICOMElementsLookup :=
  let element : Option Element :=
    match dataSet.FindElementByTag tag with
    | .ok e => some e
    | .error _ => none
  GoMap.set elementsByTag tag.String element

/-- The method `FindElements`: given a list of tags, a lookup of elements by tag. -/
def File.FindElements (dec : Decoder) (d : File) (tags : List Tag) (w : World) :
    World × Except GoError DICOMElementsLookup :=
  match d.DataSet dec w with
  | (w', .error err) => (w', .error err)
  | (w', .ok dataSet) =>
    let elementsByTag : DICOMElementsLookup :=
      if tags.length > 0 then tags.foldl (findElementsStep dataSet) [] else []
    (w', .ok elementsByTag)

/-- A decoder substitute that returns the dataset `ds` on every call and reads
the stream to its end. -/
def fixedDecoder (ds : Dataset) : Decoder := { Parse := fun _ _ => ([], .ok ds) }

/-! ## `src/http/dicomfiles.go` -/

/-- Go's `strings.Trim(s, cutset)`: `s` without its leading and trailing
characters that occur in `cutset`. -/
def stringsTrim (s cutset : List Char) : List Char :=
  ((s.dropWhile (fun c => cutset.contains c)).reverse.dropWhile
    (fun c => cutset.contains c)).reverse

/-- Go's `strings.Split(s, sep)` for a separator of one character: the pieces of
`s` between the separators, one more than there are separators. -/
def stringsSplit (s : List Char) (sep : Char) : List (List Char) :=
  match s with
  | [] => [[]]
  | c :: cs =>
    if c = sep then [] :: stringsSplit cs sep
    else
      match stringsSplit cs sep with
      | [] => [[c]]
      | p :: ps => (c :: p) :: ps

/-- The function `lower` of Go's `strconv`: the byte with the bit `0x20` set, which
maps the upper-case letters to lower case. -/
def lower (c : Char) : Nat := c.toNat ||| 32

/-- The digit of a character in `strconv.ParseUint` with base 16: the decimal
digits, then the letters from `a` (either case) counted from ten; a letter that
is no digit of the base is a syntax error. -/
def hexVal (c : Char) : Option Nat :=
  let d : Option Nat :=
    if 48 ≤ c.toNat ∧ c.toNat ≤ 57 then some (c.toNat - 48)
    else if 97 ≤ lower c ∧ lower c ≤ 122 then some (lower c - 97 + 10)
    else none
  match d with
  | none => none
  | some d => if d ≥ 16 then none else some d

/-- The digit loop of Go's `strconv.ParseUint(s, 16, 64)` from the value `n`. -/
def parseUintLoop : List Char → Nat → Except GoError Nat
  | [], n => .ok n
  | c :: cs, n =>
    match hexVal c with
    | none => .error .numSyntax
    | some d =>
      if n ≥ 1152921504606846976 then .error .numRange
      else parseUintLoop cs (n * 16 + d)

/-- Go's `strconv.ParseUint(s, 16, 64)`. -/
def ParseUint (s : List Char) : Except GoError Nat :=
  if s = [] then .error .numSyntax else parseUintLoop s 0

/-- Go's `strconv.ParseInt(s, 16, 0)`: an optional sign and hexadecimal digits,
within the range of `int`. -/
def ParseInt (s : List Char) : Except GoError Int :=
  match s with
  | [] => .error .numSyntax
  | c :: rest =>
    let neg := decide (c = '-')
    let digits := if c = '+' ∨ c = '-' then rest else s
    match ParseUint digits with
    | .error err => .error err
    | .ok un =>
      if !neg ∧ un ≥ 9223372036854775808 then .error .numRange
      else if neg ∧ un > 9223372036854775808 then .error .numRange
      else .ok (if neg then -(un : Int) else (un : Int))

/-- Go's conversion `uint16(v)` of an `int64`: the low sixteen bits. -/
def toUint16 (v : Int) : Fin 65536 :=
  ⟨(v % 65536).toNat, by omega⟩

/-- The function `parseTag`: a tag from its text `(group,element)`. -/
def parseTag (tagString : String) : Except GoError Tag :=
  let parts := stringsSplit (stringsTrim tagString.data ['(', ')']) ','
  match parts with
  | g :: e :: _ =>
    match ParseInt g with
    | .error err => .error err
    | .ok group =>
      match ParseInt e with
      | .error err => .error err
      | .ok elem => .ok { Group := toUint16 group, Element := toUint16 elem }
  | _ => .error .malformedTag

/-- The constant `tagQueryParamKey`. -/
def tagQueryParamKey : String := "tag"

/-- The loop of `parseTagQuery`: stops at the first text that does not parse. -/
def parseTagQueryLoop : List String → List Tag → Except GoError (List Tag)
  | [], tags => .ok tags
  | queryString :: rest, tags =>
    match parseTag queryString with
    | .error err => .error err
    | .ok tag => parseTagQueryLoop rest (tags ++ [tag])

/-- The method `parseTagQuery`: the tags of the url query; `query` is Go's
`url.Values`, a map from keys to lists of values. -/
def parseTagQuery (query : GoMap (List String)) : Except GoError (List Tag) :=
  let queryStrings := (GoMap.get? query tagQueryParamKey).getD []
  parseTagQueryLoop queryStrings []

/-- The text `fmt.Sprintf("%x", n)` of a 16-bit value: its hexadecimal digits
without leading zeros, `0` for zero. -/
def hexUnpadded (n : Nat) : List Char :=
  match (hex4 n).dropWhile (fun c => c == '0') with
  | [] => ['0']
  | c :: cs => c :: cs

/-- The unpadded text `(group,element)` of a tag,
`fmt.Sprintf("(%x,%x)", t.Group, t.Element)`. -/
def unpaddedTagString (t : Tag) : String :=
  String.mk (['('] ++ hexUnpadded t.Group.val ++ [','] ++ hexUnpadded t.Element.val ++ [')'])

/-- The list `l` is a hexadecimal text of the 16-bit value `n`: not empty, made
of the digits `0-9a-f`, and read as `n` by the digit loop of `strconv`. -/
def HexText (l : List Char) (n : Nat) : Prop :=
  l ≠ [] ∧ (∀ c ∈ l, ∃ d : Fin 16, c = hexDigit d.val) ∧ parseUintLoop l 0 = .ok n ∧ n < 65536

/-- A frame as the decoder can hand it over: every sample, `Rows` and `Cols` are
values of `int`, and `Data` is a slice that the run time can hold, with no more
elements than the allocation limit has bytes. -/
def NativeFrame.WellFormed (f : NativeFrame) : Prop :=
  inInt f.Rows ∧ inInt f.Cols ∧ (f.Data.length : Int) ≤ maxAlloc ∧
    ∀ row ∈ f.Data, ∀ v ∈ row, inInt v

instance (f : NativeFrame) : Decidable f.WellFormed := by
  unfold NativeFrame.WellFormed; infer_instance

/-- The dataset of the test "returns pixel-scaled image for valid pixel
element": one 2x2 frame with the channel-0 values `0, 1, 3, 4`. -/
def validDataset : Dataset :=
  Dataset.mk [Element.mk Tag.PixelData
    (some (Value.pixelData (PixelDataInfo.mk
      [Frame.mk (NativeFrame.mk [[0], [1], [3], [4]] 2 2)])))]

/-- The dataset of the test "returns no images for empty pixel element": a
pixel-data payload without frames. -/
def emptyPixelDataset : Dataset :=
  Dataset.mk [Element.mk Tag.PixelData (some (Value.pixelData (PixelDataInfo.mk [])))]

/-- The dataset of the test "errors on missing element": one element with the
tag `(0000,0000)`. -/
def missingElementDataset : Dataset :=
  Dataset.mk [Element.mk (Tag.mk 0 0) none]

/-! ## Arithmetic of `int` -/

theorem wrapInt_eq_self {x : Int} (h : inInt x) : wrapInt x = x := by
  unfold inInt at h
  unfold wrapInt
  omega

theorem wrapInt_sub_ne_zero {a b : Int} (ha : inInt a) (hb : inInt b) (hne : a ≠ b) :
    wrapInt (b - a) ≠ 0 := by
  unfold inInt at ha hb
  unfold wrapInt
  omega

theorem tdiv_mono_of_pos {a b c : Int} (hc : 0 < c) (hab : a ≤ b) : a.tdiv c ≤ b.tdiv c := by
  rcases le_or_lt 0 a with ha | ha
  · rw [Int.tdiv_eq_ediv ha hc.le, Int.tdiv_eq_ediv (ha.trans hab) hc.le]
    exact Int.ediv_le_ediv hc hab
  · have h1 : a.tdiv c ≤ 0 := by
      have h := Int.tdiv_nonneg (a := -a) (b := c) (by omega) hc.le
      rw [Int.neg_tdiv] at h
      omega
    rcases le_or_lt 0 b with hb | hb
    · exact h1.trans (Int.tdiv_nonneg hb hc.le)
    · have e1 : a.tdiv c = -((-a) / c) := by
        rw [← Int.tdiv_eq_ediv (by omega) hc.le, Int.neg_tdiv]; omega
      have e2 : b.tdiv c = -((-b) / c) := by
        rw [← Int.tdiv_eq_ediv (by omega) hc.le, Int.neg_tdiv]; omega
      have h2 : (-b) / c ≤ (-a) / c := Int.ediv_le_ediv hc (by omega)
      omega

/-- The quotient `(r * d) / c` for `0 ≤ d ≤ c` lies between `0` and `r`. -/
theorem tdiv_scaled_between {r d c : Int} (hc : 0 < c) (hd0 : 0 ≤ d) (hdc : d ≤ c) :
    (0 ≤ r → 0 ≤ (r * d).tdiv c ∧ (r * d).tdiv c ≤ r) ∧
    (r ≤ 0 → r ≤ (r * d).tdiv c ∧ (r * d).tdiv c ≤ 0) := by
  have hcancel : (r * c).tdiv c = r := Int.mul_tdiv_cancel r (by omega)
  have hzero : (0 : Int).tdiv c = 0 := Int.zero_tdiv c
  constructor
  · intro hr
    have h1 : 0 ≤ r * d := Int.mul_nonneg hr hd0
    have h2 : r * d ≤ r * c := Int.mul_le_mul_of_nonneg_left hdc hr
    have m1 := tdiv_mono_of_pos hc h1
    have m2 := tdiv_mono_of_pos hc h2
    rw [hzero] at m1
    rw [hcancel] at m2
    exact ⟨m1, m2⟩
  · intro hr
    have h1 : r * d ≤ 0 := Int.mul_nonpos_of_nonpos_of_nonneg hr hd0
    have h2 : r * c ≤ r * d := Int.mul_le_mul_of_nonpos_left hr hdc
    have m1 := tdiv_mono_of_pos hc h1
    have m2 := tdiv_mono_of_pos hc h2
    rw [hzero] at m1
    rw [hcancel] at m2
    exact ⟨m2, m1⟩

/-! ## `mapValue` -/

/-- The clamp of `mapValue` leaves a value inside the source domain as it is. -/
theorem mapValue_unfold_inside (v : Int) (s t : domain1D) (hv1 : s.min ≤ v) (hv2 : v ≤ s.max) :
    mapValue v s t =
      match goDiv (wrapInt (wrapInt (t.max - t.min) * wrapInt (v - s.min)))
          (wrapInt (s.max - s.min)) with
      | .error p => .error p
      | .ok q => .ok (wrapInt (t.min + q)) := by
  unfold mapValue
  have h1 : ¬ v < s.min := by omega
  have h2 : ¬ v > s.max := by omega
  simp only [h1, h2, if_false]

/-- Without overflow `mapValue` is the linear map with truncating division. -/
theorem mapValue_exact (v : Int) (s t : domain1D)
    (hs : s.min < s.max) (hsmin : inInt s.min) (hsmax : inInt s.max)
    (htmin : inInt t.min) (htmax : inInt t.max)
    (hv1 : s.min ≤ v) (hv2 : v ≤ s.max)
    (hno : |t.max - t.min| * (s.max - s.min) < 9223372036854775808) :
    mapValue v s t =
      .ok (t.min + ((t.max - t.min) * (v - s.min)).tdiv (s.max - s.min)) := by
  rw [mapValue_unfold_inside v s t hv1 hv2]
  have hsR : wrapInt (s.max - s.min) ≠ 0 := wrapInt_sub_ne_zero hsmin hsmax (by omega)
  have hc : 0 < s.max - s.min := by omega
  by_cases htR : t.max - t.min = 0
  · have h0 : wrapInt 0 = 0 := by decide
    simp only [htR, h0, Int.zero_mul, goDiv, hsR, if_false, Int.zero_tdiv, Int.add_zero]
    rw [wrapInt_eq_self htmin]
  · have habs : 1 ≤ |t.max - t.min| := Int.one_le_abs htR
    have habs0 : 0 ≤ |t.max - t.min| := abs_nonneg _
    have hsRlt : s.max - s.min < 9223372036854775808 := by nlinarith
    have htRlt : |t.max - t.min| < 9223372036854775808 := by nlinarith
    have hd0 : 0 ≤ v - s.min := by omega
    have hdc : v - s.min ≤ s.max - s.min := by omega
    have hprod : |t.max - t.min| * (v - s.min) < 9223372036854775808 := by nlinarith
    have hbetween := tdiv_scaled_between (r := t.max - t.min) hc hd0 hdc
    unfold inInt at hsmin hsmax htmin htmax
    have hhi : t.max - t.min < 9223372036854775808 :=
      lt_of_le_of_lt (le_abs_self _) htRlt
    have hlo : -9223372036854775808 < t.max - t.min :=
      lt_of_lt_of_le (by omega) (neg_abs_le _)
    have e1 : wrapInt (t.max - t.min) = t.max - t.min := by
      apply wrapInt_eq_self
      unfold inInt
      omega
    have e2 : wrapInt (v - s.min) = v - s.min := by
      apply wrapInt_eq_self; unfold inInt; omega
    have e3 : wrapInt (s.max - s.min) = s.max - s.min := by
      apply wrapInt_eq_self; unfold inInt; omega
    have e4 : wrapInt ((t.max - t.min) * (v - s.min)) = (t.max - t.min) * (v - s.min) := by
      apply wrapInt_eq_self
      unfold inInt
      rcases abs_cases (t.max - t.min) with ⟨h, _⟩ | ⟨h, _⟩
      · rw [h] at hprod
        have : 0 ≤ (t.max - t.min) * (v - s.min) := Int.mul_nonneg (by omega) hd0
        omega
      · rw [h] at hprod
        have : (t.max - t.min) * (v - s.min) ≤ 0 :=
          Int.mul_nonpos_of_nonpos_of_nonneg (by omega) hd0
        have e : -(t.max - t.min) * (v - s.min) = -((t.max - t.min) * (v - s.min)) := by ring
        omega
    have e5 : wrapInt (((t.max - t.min) * (v - s.min)).tdiv (s.max - s.min)) =
        ((t.max - t.min) * (v - s.min)).tdiv (s.max - s.min) := by
      apply wrapInt_eq_self
      unfold inInt
      rcases le_total 0 (t.max - t.min) with h | h
      · have := hbetween.1 h; omega
      · have := hbetween.2 h; omega
    have e6 : wrapInt (t.min + ((t.max - t.min) * (v - s.min)).tdiv (s.max - s.min)) =
        t.min + ((t.max - t.min) * (v - s.min)).tdiv (s.max - s.min) := by
      apply wrapInt_eq_self
      unfold inInt
      rcases le_total 0 (t.max - t.min) with h | h
      · have := hbetween.1 h; omega
      · have := hbetween.2 h; omega
    have hne : s.max - s.min ≠ 0 := by omega
    simp only [e1, e2, e3, e4, goDiv, hne, if_false, e5, e6]

/-- With in-range, distinct source bounds `mapValue` returns a value: the
divisor is not zero. -/
theorem mapValue_returns (v : Int) (s t : domain1D)
    (hsmin : inInt s.min) (hsmax : inInt s.max) (hne : s.min ≠ s.max) :
    ∃ r, mapValue v s t = .ok r := by
  have hsR : wrapInt (s.max - s.min) ≠ 0 := wrapInt_sub_ne_zero hsmin hsmax hne
  unfold mapValue
  simp only [goDiv, hsR, if_false]
  exact ⟨_, rfl⟩

/-- A value below the source domain is mapped like `source.min`. -/
theorem mapValue_below (v : Int) (s t : domain1D) (h : v < s.min) :
    mapValue v s t = mapValue s.min s t := by
  unfold mapValue
  simp only [h, if_true, lt_irrefl, if_false]

/-- A value above the source domain is mapped like `source.max`. -/
theorem mapValue_above (v : Int) (s t : domain1D) (h : s.max < v) :
    mapValue v s t = mapValue s.max s t := by
  unfold mapValue
  by_cases h1 : v < s.min
  · have h2 : s.min > s.max := by omega
    have h3 : s.max < s.min := by omega
    simp only [h1, h2, h3, if_true]
  · have h2 : v > s.max := h
    by_cases h3 : s.max < s.min
    · have h4 : s.min > s.max := h3
      simp only [h1, h2, h3, h4, if_true, if_false]
    · simp only [h1, h2, h3, if_true, if_false, gt_iff_lt, lt_irrefl]

/-- Claim C2, as amended: for in-range bounds, a source interval with
`min < max` and a target interval with `min ≤ max`, `mapValue` sends
`source.min` to `target.min`, and sends `source.max` to `target.max` whenever the
product `(target.max - target.min) * (source.max - source.min)` fits in `int`. -/
theorem mapValue_endpoints (s t : domain1D)
    (hsmin : inInt s.min) (hsmax : inInt s.max) (htmin : inInt t.min) (htmax : inInt t.max)
    (hs : s.min < s.max) (ht : t.min ≤ t.max) :
    mapValue s.min s t = .ok t.min ∧
    ((t.max - t.min) * (s.max - s.min) < 9223372036854775808 →
      mapValue s.max s t = .ok t.max) := by
  have hsR : wrapInt (s.max - s.min) ≠ 0 := wrapInt_sub_ne_zero hsmin hsmax (by omega)
  constructor
  · rw [mapValue_unfold_inside s.min s t (le_refl _) hs.le]
    have h0 : wrapInt 0 = 0 := by decide
    simp only [Int.sub_self, h0, Int.mul_zero, goDiv, hsR, if_false, Int.zero_tdiv,
      Int.add_zero]
    rw [wrapInt_eq_self htmin]
  · intro hno
    have habs : |t.max - t.min| = t.max - t.min := abs_of_nonneg (by omega)
    rw [mapValue_exact s.max s t hs hsmin hsmax htmin htmax hs.le (le_refl _)
      (by rw [habs]; exact hno)]
    rw [Int.mul_tdiv_cancel _ (by omega)]
    congr 1
    omega

/-- Claim C2, witness of `mapValue_endpoints`: source `{0,2}`, target `{1,999999}`. -/
theorem mapValue_endpoints_witness :
    ((0 : Int) < 2 ∧ (1 : Int) ≤ 999999) ∧
    mapValue 0 ⟨0, 2⟩ ⟨1, 999999⟩ = .ok 1 ∧ mapValue 2 ⟨0, 2⟩ ⟨1, 999999⟩ = .ok 999999 :=
  ⟨by decide,
    (mapValue_endpoints ⟨0, 2⟩ ⟨1, 999999⟩ (by decide) (by decide) (by decide) (by decide)
      (by decide) (by decide)).1,
    (mapValue_endpoints ⟨0, 2⟩ ⟨1, 999999⟩ (by decide) (by decide) (by decide) (by decide)
      (by decide) (by decide)).2 (by decide)⟩

/-- Claim C2 as stated fails: with source `{0,3}` and target `{0,2^62}` (both
with `min < max`, all bounds in range) the product `2^62 * 3` overflows `int`
and `mapValue(source.max)` is `-1537228672809129301`, not `target.max`. -/
theorem mapValue_endpoints_counterexample :
    (inInt 0 ∧ inInt 3 ∧ inInt 4611686018427387904) ∧ (0 : Int) < 3 ∧
    (0 : Int) ≤ 4611686018427387904 ∧
    mapValue 3 ⟨0, 3⟩ ⟨0, 4611686018427387904⟩ = .ok (-1537228672809129301) ∧
    mapValue 3 ⟨0, 3⟩ ⟨0, 4611686018427387904⟩ ≠ .ok 4611686018427387904 := by
  decide

/-- Claim C3, as amended: for in-range source bounds with `min ≠ max`, every
target and every positive `k` of `int`, `mapValue` returns a value at both
bounds, maps `source.min - k` like `source.min` when the subtraction does not
overflow `int`, and maps `source.max + k` like `source.max` when the addition
does not overflow `int`. -/
theorem mapValue_clamps (s t : domain1D) (k : Int)
    (hsmin : inInt s.min) (hsmax : inInt s.max) (_hk : inInt k) (hne : s.min ≠ s.max)
    (hpos : 0 < k) :
    ∃ lo hi, mapValue s.min s t = .ok lo ∧ mapValue s.max s t = .ok hi ∧
      (inInt (s.min - k) → mapValue (wrapInt (s.min - k)) s t = .ok lo) ∧
      (inInt (s.max + k) → mapValue (wrapInt (s.max + k)) s t = .ok hi) := by
  obtain ⟨lo, hlo⟩ := mapValue_returns s.min s t hsmin hsmax hne
  obtain ⟨hi, hhi⟩ := mapValue_returns s.max s t hsmin hsmax hne
  refine ⟨lo, hi, hlo, hhi, ?_, ?_⟩
  · intro hin
    rw [wrapInt_eq_self hin, mapValue_below (s.min - k) s t (by omega)]
    exact hlo
  · intro hin
    rw [wrapInt_eq_self hin, mapValue_above (s.max + k) s t (by omega)]
    exact hhi

/-- Claim C3, witness of `mapValue_clamps`: source `{0,5}`, target `{0,5}`, `k = 1`. -/
theorem mapValue_clamps_witness :
    ((0 : Int) ≠ 5 ∧ (0 : Int) < 1) ∧
    mapValue (wrapInt (0 - 1)) ⟨0, 5⟩ ⟨0, 5⟩ = mapValue 0 ⟨0, 5⟩ ⟨0, 5⟩ ∧
    mapValue (wrapInt (5 + 1)) ⟨0, 5⟩ ⟨0, 5⟩ = mapValue 5 ⟨0, 5⟩ ⟨0, 5⟩ :=
  ⟨by decide,
    match mapValue_clamps ⟨0, 5⟩ ⟨0, 5⟩ 1 (by decide) (by decide) (by decide) (by decide)
      (by decide) with
    | ⟨_, _, h1, h2, h3, h4⟩ =>
      ⟨(h3 (by decide)).trans h1.symm, (h4 (by decide)).trans h2.symm⟩⟩

/-- Claim C3 as stated fails: with the source `{-2^63, -2^63 + 4}`, the target
`{0,10}` and `k = 1` the subtraction `source.min - k` wraps to `2^63 - 1`, which
lies above the source and is mapped like `source.max`, to `10`, while
`source.min` is mapped to `0`. -/
theorem mapValue_clamps_counterexample :
    (inInt (-9223372036854775808) ∧ inInt (-9223372036854775804) ∧ inInt 1) ∧
    (-9223372036854775808 : Int) ≠ -9223372036854775804 ∧ (0 : Int) < 1 ∧
    wrapInt (-9223372036854775808 - 1) = 9223372036854775807 ∧
    mapValue (wrapInt (-9223372036854775808 - 1))
      ⟨-9223372036854775808, -9223372036854775804⟩ ⟨0, 10⟩ = .ok 10 ∧
    mapValue (-9223372036854775808)
      ⟨-9223372036854775808, -9223372036854775804⟩ ⟨0, 10⟩ = .ok 0 ∧
    mapValue (wrapInt (-9223372036854775808 - 1))
      ⟨-9223372036854775808, -9223372036854775804⟩ ⟨0, 10⟩ ≠
    mapValue (-9223372036854775808)
      ⟨-9223372036854775808, -9223372036854775804⟩ ⟨0, 10⟩ := by
  decide

/-- Claim C4, as amended: for in-range bounds, a source interval with
`min < max`, values `v1 ≤ v2` inside it, and
`|target.max - target.min| * (source.max - source.min)` fitting in `int`,
`mapValue` returns values `r1`, `r2` with `r1 ≤ r2` when `target.max ≥ target.min`
and `r1 ≥ r2` when `target.max < target.min`. -/
theorem mapValue_monotone (s t : domain1D) (v1 v2 : Int)
    (hsmin : inInt s.min) (hsmax : inInt s.max) (htmin : inInt t.min) (htmax : inInt t.max)
    (hs : s.min < s.max) (h1 : s.min ≤ v1) (h12 : v1 ≤ v2) (h2 : v2 ≤ s.max)
    (hno : |t.max - t.min| * (s.max - s.min) < 9223372036854775808) :
    ∃ r1 r2, mapValue v1 s t = .ok r1 ∧ mapValue v2 s t = .ok r2 ∧
      (t.max ≥ t.min → r1 ≤ r2) ∧ (t.max < t.min → r1 ≥ r2) := by
  have hc : 0 < s.max - s.min := by omega
  refine ⟨_, _, mapValue_exact v1 s t hs hsmin hsmax htmin htmax h1 (h12.trans h2) hno,
    mapValue_exact v2 s t hs hsmin hsmax htmin htmax (h1.trans h12) h2 hno, ?_, ?_⟩
  · intro ht
    have hm : (t.max - t.min) * (v1 - s.min) ≤ (t.max - t.min) * (v2 - s.min) :=
      Int.mul_le_mul_of_nonneg_left (by omega) (by omega)
    have := tdiv_mono_of_pos hc hm
    omega
  · intro ht
    have hm : (t.max - t.min) * (v2 - s.min) ≤ (t.max - t.min) * (v1 - s.min) :=
      Int.mul_le_mul_of_nonpos_left (by omega) (by omega)
    have := tdiv_mono_of_pos hc hm
    omega

/-- Claim C4, witness of `mapValue_monotone`: source `{10,99}`, target `{5,1}`,
values `40 ≤ 70`. -/
theorem mapValue_monotone_witness :
    ((10 : Int) < 99 ∧ (10 : Int) ≤ 40 ∧ (40 : Int) ≤ 70 ∧ (70 : Int) ≤ 99) ∧
    ∃ r1 r2, mapValue 40 ⟨10, 99⟩ ⟨5, 1⟩ = .ok r1 ∧ mapValue 70 ⟨10, 99⟩ ⟨5, 1⟩ = .ok r2 ∧
      ((1 : Int) ≥ 5 → r1 ≤ r2) ∧ ((1 : Int) < 5 → r1 ≥ r2) :=
  ⟨by decide, mapValue_monotone ⟨10, 99⟩ ⟨5, 1⟩ 40 70 (by decide) (by decide) (by decide)
    (by decide) (by decide) (by decide) (by decide) (by decide) (by decide)⟩

/-- Claim C4 as stated fails: with source `{0,2^32}` and target `{0,2^32}` the
values `2^30 ≤ 2^31` lie inside the source, `target.max ≥ target.min`, yet
`mapValue` gives `2^30` and `-2^31` (the product `2^32 * 2^31` overflows `int`). -/
theorem mapValue_monotone_counterexample :
    (inInt 0 ∧ inInt 4294967296) ∧ (0 : Int) < 4294967296 ∧
    ((0 : Int) ≤ 1073741824 ∧ (1073741824 : Int) ≤ 2147483648 ∧
      (2147483648 : Int) ≤ 4294967296) ∧
    (4294967296 : Int) ≥ 0 ∧
    mapValue 1073741824 ⟨0, 4294967296⟩ ⟨0, 4294967296⟩ = .ok 1073741824 ∧
    mapValue 2147483648 ⟨0, 4294967296⟩ ⟨0, 4294967296⟩ = .ok (-2147483648) ∧
    ¬ ((1073741824 : Int) ≤ -2147483648) := by
  decide

/-! ## `findBounds` -/

/-- The fold of `findBounds` from a seed `(a, b)` with `a ≤ b`: the result
brackets the seed and every channel-0 value, and each end is the seed's or is
attained by a row. -/
theorem foldl_findBoundsStep_spec (l : List (List Int)) :
    ∀ a b : Int, a ≤ b →
      (l.foldl findBoundsStep (a, b)).1 ≤ a ∧ b ≤ (l.foldl findBoundsStep (a, b)).2 ∧
      ((l.foldl findBoundsStep (a, b)).1 = a ∨
        ∃ row ∈ l, row.head? = some (l.foldl findBoundsStep (a, b)).1) ∧
      ((l.foldl findBoundsStep (a, b)).2 = b ∨
        ∃ row ∈ l, row.head? = some (l.foldl findBoundsStep (a, b)).2) ∧
      ∀ row ∈ l, ∀ v, row.head? = some v →
        (l.foldl findBoundsStep (a, b)).1 ≤ v ∧ v ≤ (l.foldl findBoundsStep (a, b)).2 := by
  induction l with
  | nil =>
    intro a b _
    simp
  | cons row rest ih =>
    intro a b hab
    cases row with
    | nil =>
      obtain ⟨h1, h2, h3, h4, h5⟩ := ih a b hab
      simp only [List.foldl_cons, findBoundsStep]
      refine ⟨h1, h2, ?_, ?_, ?_⟩
      · rcases h3 with h | ⟨r, hr, hv⟩
        · exact Or.inl h
        · exact Or.inr ⟨r, List.mem_cons_of_mem _ hr, hv⟩
      · rcases h4 with h | ⟨r, hr, hv⟩
        · exact Or.inl h
        · exact Or.inr ⟨r, List.mem_cons_of_mem _ hr, hv⟩
      · intro r hr v hv
        rcases List.mem_cons.1 hr with rfl | hr
        · simp at hv
        · exact h5 r hr v hv
    | cons val tl =>
      simp only [List.foldl_cons, findBoundsStep]
      have hab' : (if val < a then val else a) ≤ (if val > b then val else b) := by
        split_ifs <;> omega
      obtain ⟨h1, h2, h3, h4, h5⟩ := ih _ _ hab'
      refine ⟨?_, ?_, ?_, ?_, ?_⟩
      · have : (if val < a then val else a) ≤ a := by split_ifs <;> omega
        exact h1.trans this
      · have : b ≤ (if val > b then val else b) := by split_ifs <;> omega
        exact this.trans h2
      · rcases h3 with h | ⟨r, hr, hv⟩
        · by_cases hva : val < a
          · right
            refine ⟨val :: tl, List.mem_cons_self _ _, ?_⟩
            rw [h]
            simp [hva]
          · left
            rw [h]
            simp [hva]
        · exact Or.inr ⟨r, List.mem_cons_of_mem _ hr, hv⟩
      · rcases h4 with h | ⟨r, hr, hv⟩
        · by_cases hvb : val > b
          · right
            refine ⟨val :: tl, List.mem_cons_self _ _, ?_⟩
            rw [h]
            simp [hvb]
          · left
            rw [h]
            simp [hvb]
        · exact Or.inr ⟨r, List.mem_cons_of_mem _ hr, hv⟩
      · intro r hr v hv
        rcases List.mem_cons.1 hr with rfl | hr
        · simp only [List.head?_cons, Option.some.injEq] at hv
          subst hv
          constructor
          · have : (if val < a then val else a) ≤ val := by split_ifs <;> omega
            exact h1.trans this
          · have : val ≤ (if val > b then val else b) := by split_ifs <;> omega
            exact this.trans h2
        · exact h5 r hr v hv

/-- One step of `findBounds` reads only the first channel of the row. -/
theorem findBoundsStep_head (acc : Int × Int) (row row' : List Int)
    (h : row.head? = row'.head?) : findBoundsStep acc row = findBoundsStep acc row' := by
  cases row <;> cases row' <;> simp_all [findBoundsStep]

theorem foldl_findBoundsStep_head (l : List (List Int)) :
    ∀ (l' : List (List Int)) (acc : Int × Int), l'.map List.head? = l.map List.head? →
      l'.foldl findBoundsStep acc = l.foldl findBoundsStep acc := by
  induction l with
  | nil =>
    intro l' acc h
    cases l' with
    | nil => rfl
    | cons _ _ => simp at h
  | cons row rest ih =>
    intro l' acc h
    cases l' with
    | nil => simp at h
    | cons row' rest' =>
      simp only [List.map_cons, List.cons.injEq] at h
      simp only [List.foldl_cons]
      rw [findBoundsStep_head acc row' row h.1]
      exact ih rest' _ h.2

/-- Rows without channels do not change the fold of `findBounds`. -/
theorem foldl_findBoundsStep_filter (l : List (List Int)) :
    ∀ acc : Int × Int,
      (l.filter (fun row => !row.isEmpty)).foldl findBoundsStep acc =
        l.foldl findBoundsStep acc := by
  induction l with
  | nil => intro acc; rfl
  | cons row rest ih =>
    intro acc
    cases row with
    | nil => simpa [findBoundsStep] using ih acc
    | cons val tl => simpa using ih _

/-- For a frame whose first row is `v :: tl`, both bounds are attained by a row
and bracket the channel-0 value of every row. -/
theorem findBounds_attained_bracket (v : Int) (tl : List Int) (rest : List (List Int))
    (Rows Cols : Int) :
    (∃ row ∈ (v :: tl) :: rest,
      row.head? = some (findBounds ⟨(v :: tl) :: rest, Rows, Cols⟩).min) ∧
    (∃ row ∈ (v :: tl) :: rest,
      row.head? = some (findBounds ⟨(v :: tl) :: rest, Rows, Cols⟩).max) ∧
    (∀ row ∈ (v :: tl) :: rest, ∀ w, row.head? = some w →
      (findBounds ⟨(v :: tl) :: rest, Rows, Cols⟩).min ≤ w ∧
      w ≤ (findBounds ⟨(v :: tl) :: rest, Rows, Cols⟩).max) := by
  obtain ⟨_, _, h3, h4, h5⟩ := foldl_findBoundsStep_spec ((v :: tl) :: rest) v v (le_refl v)
  have hmem : (v :: tl) ∈ (v :: tl) :: rest := List.mem_cons_self _ _
  refine ⟨?_, ?_, h5⟩
  · rcases h3 with h | h
    · exact ⟨v :: tl, hmem, by simp only [findBounds]; rw [h]; rfl⟩
    · exact h
  · rcases h4 with h | h
    · exact ⟨v :: tl, hmem, by simp only [findBounds]; rw [h]; rfl⟩
    · exact h

/-- Claim C5: for a frame whose first row exists and is non-empty, the bounds
returned by `findBounds` are attained by the channel-0 value of some row, bracket
the channel-0 value of every non-empty row, are the same for every frame with the
same channel-0 values (channels of index 1 and above are not read), and are the
same when the empty rows are removed. -/
theorem findBounds_spec (frame : NativeFrame)
    (hfirst : ∃ first, frame.Data.head? = some first ∧ first ≠ []) :
    (∃ row ∈ frame.Data, row.head? = some (findBounds frame).min) ∧
    (∃ row ∈ frame.Data, row.head? = some (findBounds frame).max) ∧
    (∀ row ∈ frame.Data, ∀ v, row.head? = some v →
      (findBounds frame).min ≤ v ∧ v ≤ (findBounds frame).max) ∧
    (∀ frame' : NativeFrame, frame'.Data.map List.head? = frame.Data.map List.head? →
      findBounds frame' = findBounds frame) ∧
    findBounds { frame with Data := frame.Data.filter (fun row => !row.isEmpty) } =
      findBounds frame := by
  obtain ⟨Data, Rows, Cols⟩ := frame
  obtain ⟨first, h1, h2⟩ := hfirst
  cases Data with
  | nil => simp at h1
  | cons row rest =>
    simp only [List.head?_cons, Option.some.injEq] at h1
    subst h1
    cases row with
    | nil => exact absurd rfl h2
    | cons v tl =>
      obtain ⟨h3, h4, h5⟩ := findBounds_attained_bracket v tl rest Rows Cols
      refine ⟨h3, h4, h5, ?_, ?_⟩
      · intro frame' hmap
        obtain ⟨Data', Rows', Cols'⟩ := frame'
        cases Data' with
        | nil => simp at hmap
        | cons row' rest' =>
          cases row' with
          | nil => simp at hmap
          | cons v' tl' =>
            have hv : v' = v := by simpa using (List.cons.inj hmap).1
            subst hv
            simp only [findBounds]
            rw [foldl_findBoundsStep_head _ _ _ hmap]
      · simp only [findBounds, List.filter_cons, List.isEmpty_cons, Bool.not_false, if_true]
        have := foldl_findBoundsStep_filter ((v :: tl) :: rest) (v, v)
        simp only [List.filter_cons, List.isEmpty_cons, Bool.not_false, if_true] at this
        rw [this]

/-- Claim C5, witness of `findBounds_spec`: six rows, the last one empty. -/
theorem findBounds_spec_witness :
    findBounds ⟨[[-2, 99], [5, 22], [2, 4], [9, 10], [6, 1], []], 6, 1⟩ = ⟨-2, 9⟩ ∧
    (∀ row ∈ [[-2, 99], [5, 22], [2, 4], [9, 10], [6, 1], []], ∀ v, row.head? = some v →
      (findBounds ⟨[[-2, 99], [5, 22], [2, 4], [9, 10], [6, 1], []], 6, 1⟩).min ≤ v ∧
      v ≤ (findBounds ⟨[[-2, 99], [5, 22], [2, 4], [9, 10], [6, 1], []], 6, 1⟩).max) :=
  ⟨by decide,
    (findBounds_spec ⟨[[-2, 99], [5, 22], [2, 4], [9, 10], [6, 1], []], 6, 1⟩
      ⟨[-2, 99], rfl, by decide⟩).2.2.1⟩

/-- Claim C6: a frame with no rows, or whose rows are all empty, has the zero
interval as bounds. -/
theorem findBounds_empty (frame : NativeFrame)
    (h : frame.Data = [] ∨ ∀ row ∈ frame.Data, row = []) :
    findBounds frame = { min := 0, max := 0 } := by
  obtain ⟨Data, Rows, Cols⟩ := frame
  cases Data with
  | nil => rfl
  | cons row rest =>
    rcases h with h | h
    · simp at h
    · have hrow : row = [] := h row (List.mem_cons_self _ _)
      subst hrow
      rfl

/-- Claim C6, witness of `findBounds_empty`: two rows, both empty. -/
theorem findBounds_empty_witness :
    (∀ row ∈ ([[], []] : List (List Int)), row = []) ∧
    findBounds ⟨[[], []], 0, 0⟩ = { min := 0, max := 0 } :=
  ⟨by decide, findBounds_empty ⟨[[], []], 0, 0⟩ (Or.inr (by decide))⟩

/-! ## `generateImage` -/

/-- In a `cols`-wide raster of `rows * cols` bytes, writing the pixel `(x, y)` with
`y * cols + x = k` sets byte `k`. -/
theorem SetGray_at (img : Gray) (cols rows x y : Int) (k c : Nat)
    (hrect : img.Rect = { Min := { X := 0, Y := 0 }, Max := { X := cols, Y := rows } })
    (hstride : img.Stride = cols) (hlen : (img.Pix.length : Int) = rows * cols)
    (hk : (k : Int) < rows * cols) (hn : rows * cols < 9223372036854775808)
    (hx0 : 0 ≤ x) (hx1 : x < cols) (hy0 : 0 ≤ y) (hy1 : y < rows) (hy2 : y ≤ k)
    (hp0 : 0 ≤ y * cols) (hsum : y * cols + x = k) :
    img.SetGray x y c = .ok { img with Pix := img.Pix.set k c } := by
  have hin : Point.In { X := x, Y := y } img.Rect = true := by
    simp only [Point.In, hrect, Bool.and_eq_true, decide_eq_true_eq]
    exact ⟨⟨⟨hx0, hx1⟩, hy0⟩, hy1⟩
  have e1 : wrapInt (y - 0) = y := by
    rw [Int.sub_zero]; apply wrapInt_eq_self; unfold inInt; omega
  have e2 : wrapInt (x - 0) = x := by
    rw [Int.sub_zero]; apply wrapInt_eq_self; unfold inInt; omega
  have e3 : wrapInt (y * cols) = y * cols := by
    apply wrapInt_eq_self; unfold inInt; omega
  have e4 : wrapInt (x * 1) = x := by
    rw [Int.mul_one]; apply wrapInt_eq_self; unfold inInt; omega
  have e5 : wrapInt (y * cols + x) = k := by
    rw [hsum]; apply wrapInt_eq_self; unfold inInt; omega
  have hoff : img.PixOffset x y = k := by
    simp only [Gray.PixOffset, hrect, hstride, e1, e2, e3, e4, e5]
  have hb1 : (0 : Int) ≤ k := Int.ofNat_nonneg k
  have hb2 : (k : Int) < img.Pix.length := by omega
  unfold Gray.SetGray
  rw [hin, hoff]
  simp only [Bool.not_true, Bool.false_eq_true, if_false, hb1, hb2, and_self, if_true,
    Int.toNat_ofNat]


/-- The pixel loop of `generateImage` with remapping, on a blank or partly
written raster of `rows * cols` bytes, started at index `k` over the remaining
non-empty rows `l`: it ends normally, keeps the bytes below `k` and writes the
mapped channel-0 value of row `j` of `l` to byte `k + j`. -/
theorem pixelLoop_remap (s : domain1D) (cols rows : Int)
    (hsmin : inInt s.min) (hsmax : inInt s.max) (hsne : s.min ≠ s.max)
    (hcols : 0 < cols) (hn : rows * cols < 9223372036854775808) (l : List (List Int)) :
    ∀ (k : Nat) (img : Gray),
      img.Rect = { Min := { X := 0, Y := 0 }, Max := { X := cols, Y := rows } } →
      img.Stride = cols → (img.Pix.length : Int) = rows * cols →
      (k : Int) + l.length ≤ rows * cols → (∀ row ∈ l, row ≠ []) →
      ∃ img', pixelLoop true s targetPixelDomain cols l k img = .ok img' ∧
        img'.Rect = img.Rect ∧ img'.Stride = img.Stride ∧
        img'.Pix.length = img.Pix.length ∧
        (∀ i, i < k → img'.Pix[i]? = img.Pix[i]?) ∧
        ∀ j row, l[j]? = some row → ∃ v m, row.head? = some v ∧
          mapValue v s targetPixelDomain = .ok m ∧ img'.Pix[k + j]? = some (toUint8 m) := by
  induction l with
  | nil =>
    intro k img _ _ _ _ _
    exact ⟨img, rfl, rfl, rfl, rfl, fun _ _ => rfl, by simp⟩
  | cons row rest ih =>
    intro k img hrect hstride hlen hk hne
    cases row with
    | nil => exact absurd rfl (hne [] (List.mem_cons_self _ _))
    | cons v tl =>
      have hk0 : (0 : Int) ≤ k := Int.ofNat_nonneg k
      have hklt : (k : Int) < rows * cols := by
        simp only [List.length_cons, Nat.cast_add, Nat.cast_one] at hk
        omega
      have hcne : cols ≠ 0 := by omega
      have hmod : goMod k cols = .ok ((k : Int) % cols) := by
        have hx0 : 0 ≤ (k : Int) % cols := Int.emod_nonneg _ hcne
        have hx1 : (k : Int) % cols < cols := Int.emod_lt_of_pos _ hcols
        have hle : cols ≤ rows * cols := by
          rcases le_or_lt rows 0 with hr | hr
          · have := Int.mul_nonpos_of_nonpos_of_nonneg hr hcols.le
            omega
          · have := Int.mul_le_mul_of_nonneg_right (show 1 ≤ rows by omega) hcols.le
            omega
        simp only [goMod, hcne, if_false, Int.tmod_eq_emod hk0 hcols.le]
        rw [wrapInt_eq_self (by unfold inInt; omega)]
      have hdiv : goDiv k cols = .ok ((k : Int) / cols) := by
        have hy0 : 0 ≤ (k : Int) / cols := Int.ediv_nonneg hk0 hcols.le
        have hy2 : (k : Int) / cols ≤ k := Int.ediv_le_self _ hk0
        simp only [goDiv, hcne, if_false, Int.tdiv_eq_ediv hk0 hcols.le]
        rw [wrapInt_eq_self (by unfold inInt; omega)]
      obtain ⟨m, hm⟩ := mapValue_returns v s targetPixelDomain hsmin hsmax hsne
      have hset : img.SetGray ((k : Int) % cols) ((k : Int) / cols) (toUint8 m) =
          .ok { img with Pix := img.Pix.set k (toUint8 m) } := by
        have hsum : cols * ((k : Int) / cols) + (k : Int) % cols = k := Int.ediv_add_emod _ _
        rw [Int.mul_comm] at hsum
        exact SetGray_at img cols rows _ _ k (toUint8 m) hrect hstride hlen hklt hn
          (Int.emod_nonneg _ hcne) (Int.emod_lt_of_pos _ hcols)
          (Int.ediv_nonneg hk0 hcols.le) (Int.ediv_lt_of_lt_mul hcols hklt)
          (Int.ediv_le_self _ hk0)
          (Int.mul_nonneg (Int.ediv_nonneg hk0 hcols.le) hcols.le) hsum
      have hnext : wrapInt ((k : Int) + 1) = ((k + 1 : Nat) : Int) := by
        rw [wrapInt_eq_self (by unfold inInt; omega)]
        push_cast
        rfl
      have hklen : k < img.Pix.length := by omega
      obtain ⟨img', hrun, hr', hs', hl', hkeep, hwritten⟩ :=
        ih (k + 1) { img with Pix := img.Pix.set k (toUint8 m) } hrect hstride
          (by simp only [List.length_set]; exact hlen)
          (by simp only [List.length_cons, Nat.cast_add, Nat.cast_one] at hk
              push_cast
              omega)
          (fun r hr => hne r (List.mem_cons_of_mem _ hr))
      refine ⟨img', ?_, hr', hs', ?_, ?_, ?_⟩
      · simp only [pixelLoop, hmod, hdiv, if_true, hm, hset, hnext]
        exact hrun
      · rw [hl']
        simp
      · intro i hi
        rw [hkeep i (by omega)]
        simp only [List.getElem?_set]
        have : ¬ k = i := by omega
        simp [this]
      · intro j r hj
        cases j with
        | zero =>
          simp only [List.getElem?_cons_zero, Option.some.injEq] at hj
          subst hj
          refine ⟨v, m, rfl, hm, ?_⟩
          rw [Nat.add_zero, hkeep k (by omega)]
          simp [hklen]
        | succ j =>
          simp only [List.getElem?_cons_succ] at hj
          obtain ⟨w, m', hw, hm', hpix⟩ := hwritten j r hj
          refine ⟨w, m', hw, hm', ?_⟩
          have : k + (j + 1) = k + 1 + j := by omega
          rw [this]
          exact hpix

/-- A blank raster for `cols > 0` columns and `rows ≥ 0` rows with no more
pixels than the allocation limit. -/
theorem NewGray_of_dims (cols rows : Int) (hcols : 0 < cols) (hrows : 0 ≤ rows)
    (hn : rows * cols ≤ maxAlloc) (hc : cols < 9223372036854775808)
    (hr : rows < 9223372036854775808) :
    NewGray (Rect 0 0 cols rows) =
      .ok { Pix := List.replicate (rows * cols).toNat 0, Stride := cols,
            Rect := { Min := { X := 0, Y := 0 }, Max := { X := cols, Y := rows } } } := by
  have hrect : Rect 0 0 cols rows =
      { Min := { X := 0, Y := 0 }, Max := { X := cols, Y := rows } } := by
    have h1 : ¬ (0 > cols) := by omega
    have h2 : ¬ (0 > rows) := by omega
    simp only [Rect, h1, h2, if_false]
  have hmax : maxAlloc = 281474976710656 := rfl
  rw [hmax] at hn
  have hdx : wrapInt (cols - 0) = cols := by
    rw [Int.sub_zero]; apply wrapInt_eq_self; unfold inInt; omega
  have hdy : wrapInt (rows - 0) = rows := by
    rw [Int.sub_zero]; apply wrapInt_eq_self; unfold inInt; omega
  have hdx' : wrapInt cols = cols := by
    apply wrapInt_eq_self; unfold inInt; omega
  have hprod : 0 ≤ rows * cols := Int.mul_nonneg hrows hcols.le
  have hcomm : cols * rows = rows * cols := Int.mul_comm _ _
  have hmul : mul3NonNeg 1 cols rows = rows * cols := by
    have g1 : ¬ ((1 : Int) < 0 ∨ cols < 0 ∨ rows < 0) := by omega
    have g2 : ¬ (1 * cols ≥ 18446744073709551616) := by omega
    have g3 : ¬ (1 * cols * rows ≥ 18446744073709551616) := by
      rw [Int.one_mul, hcomm]; omega
    have g4 : ¬ (1 * cols * rows ≥ 9223372036854775808) := by
      rw [Int.one_mul, hcomm]; omega
    simp only [mul3NonNeg, g1, g2, g3, g4, if_false]
    rw [Int.one_mul, hcomm]
  have hnn : ¬ (rows * cols < 0) := by omega
  have hfit : ¬ (rows * cols > maxAlloc) := by rw [hmax]; omega
  rw [hrect]
  simp only [NewGray, Rectangle.Dx, Rectangle.Dy, hdx, hdy, hmul, hnn, hfit, if_false,
    Int.one_mul, hdx']

/-- The bounds of a frame of in-range samples without empty rows and with two
distinct channel-0 values are in range and distinct. -/
theorem findBounds_distinct (f : NativeFrame)
    (hvals : ∀ row ∈ f.Data, ∀ v ∈ row, inInt v) (hne : ∀ row ∈ f.Data, row ≠ [])
    (hdist : ∃ r1 ∈ f.Data, ∃ r2 ∈ f.Data, r1.head? ≠ r2.head?) :
    inInt (findBounds f).min ∧ inInt (findBounds f).max ∧
      (findBounds f).min ≠ (findBounds f).max := by
  obtain ⟨Data, Rows, Cols⟩ := f
  have hhead : ∀ row ∈ Data, ∀ w, row.head? = some w → inInt w := by
    intro row hrow w hw
    exact hvals row hrow w (List.mem_of_mem_head? hw)
  cases Data with
  | nil =>
    obtain ⟨r1, hr1, _⟩ := hdist
    exact absurd hr1 (List.not_mem_nil _)
  | cons row rest =>
    cases row with
    | nil => exact absurd rfl (hne [] (List.mem_cons_self _ _))
    | cons v tl =>
      obtain ⟨⟨ra, hra, ha⟩, ⟨rb, hrb, hb⟩, hbr⟩ :=
        findBounds_attained_bracket v tl rest Rows Cols
      refine ⟨hhead ra hra _ ha, hhead rb hrb _ hb, ?_⟩
      obtain ⟨r1, hr1, r2, hr2, h12⟩ := hdist
      cases r1 with
      | nil => exact absurd rfl (hne [] hr1)
      | cons w1 t1 =>
        cases r2 with
        | nil => exact absurd rfl (hne [] hr2)
        | cons w2 t2 =>
          have b1 := hbr _ hr1 w1 rfl
          have b2 := hbr _ hr2 w2 rfl
          have hw : w1 ≠ w2 := by
            intro h
            apply h12
            rw [h]
            rfl
          omega

/-- The frame loop body with remapping, for a well-formed frame with `Cols > 0`,
`len(Data) = Rows * Cols`, no empty row and two distinct channel-0 values: it
ends normally with the raster of the mapped channel-0 values. -/
theorem renderFrame_remap (fr : Frame) (hwf : fr.NativeData.WellFormed)
    (hcols : 0 < fr.NativeData.Cols)
    (hlen : (fr.NativeData.Data.length : Int) = fr.NativeData.Rows * fr.NativeData.Cols)
    (hne : ∀ row ∈ fr.NativeData.Data, row ≠ [])
    (hdist : ∃ r1 ∈ fr.NativeData.Data, ∃ r2 ∈ fr.NativeData.Data, r1.head? ≠ r2.head?) :
    ∃ img, renderFrame true fr = .ok img ∧
      img.Rect = Rect 0 0 fr.NativeData.Cols fr.NativeData.Rows ∧
      img.Stride = fr.NativeData.Cols ∧
      (img.Pix.length : Int) = fr.NativeData.Rows * fr.NativeData.Cols ∧
      ∀ (i : Nat) (row : List Int), fr.NativeData.Data[i]? = some row →
        ∃ v m, row.head? = some v ∧
          mapValue v (findBounds fr.NativeData) targetPixelDomain = .ok m ∧
          img.Pix[i]? = some (toUint8 m) := by
  obtain ⟨_, _, hlenlt, hvals⟩ := hwf
  obtain ⟨hsmin, hsmax, hsne⟩ := findBounds_distinct fr.NativeData hvals hne hdist
  generalize hD : fr.NativeData.Data = Data at *
  generalize hR : fr.NativeData.Rows = Rows at *
  generalize hC : fr.NativeData.Cols = Cols at *
  generalize hS : findBounds fr.NativeData = s at *
  have hpos : 0 < Data.length := by
    obtain ⟨r1, hr1, _⟩ := hdist
    exact List.length_pos_of_mem hr1
  have hrows : 0 < Rows := by
    rcases le_or_lt Rows 0 with hr | hr
    · have := Int.mul_nonpos_of_nonpos_of_nonneg hr hcols.le
      omega
    · exact hr
  have hmax : maxAlloc = 281474976710656 := rfl
  have hfit : Rows * Cols ≤ maxAlloc := by omega
  rw [hmax] at hlenlt
  have hn : Rows * Cols < 9223372036854775808 := by omega
  have hcle : Cols ≤ Rows * Cols := by
    have := Int.mul_le_mul_of_nonneg_right (show 1 ≤ Rows by omega) hcols.le
    omega
  have hrle : Rows ≤ Rows * Cols := by
    have := Int.mul_le_mul_of_nonneg_left (show 1 ≤ Cols by omega) hrows.le
    omega
  have hnew := NewGray_of_dims Cols Rows hcols hrows.le hfit (by omega) (by omega)
  have hrect : Rect 0 0 Cols Rows =
      { Min := { X := 0, Y := 0 }, Max := { X := Cols, Y := Rows } } := by
    have h1 : ¬ (0 > Cols) := by omega
    have h2 : ¬ (0 > Rows) := by omega
    simp only [Rect, h1, h2, if_false]
  have hblank : ((List.replicate (Rows * Cols).toNat (0 : Nat)).length : Int) = Rows * Cols := by
    rw [List.length_replicate]
    omega
  have hstart : ((0 : Nat) : Int) + (Data.length : Int) ≤ Rows * Cols := by
    rw [Nat.cast_zero]
    omega
  obtain ⟨img, hrun, hr', hs', hl', _, hwritten⟩ :=
    pixelLoop_remap s Cols Rows hsmin hsmax hsne hcols hn Data 0
      { Pix := List.replicate (Rows * Cols).toNat 0, Stride := Cols,
        Rect := { Min := { X := 0, Y := 0 }, Max := { X := Cols, Y := Rows } } }
      rfl rfl hblank hstart hne
  have hrender : renderFrame true fr = .ok img := by
    unfold renderFrame
    rw [hD, hR, hC, hS]
    simp only []
    rw [hnew]
    exact hrun
  refine ⟨img, hrender, ?_, hs', ?_, ?_⟩
  · rw [hr', hrect]
  · rw [hl']
    exact hblank
  · intro i row hi
    obtain ⟨v, m, hv, hm, hpix⟩ := hwritten i row hi
    rw [Nat.zero_add] at hpix
    exact ⟨v, m, hv, hm, hpix⟩

/-- One turn of the frame loop of `generateImage` whose body ends normally. -/
theorem renderFrames_cons_ok (b : Bool) (fr : Frame) (rest : List Frame) (acc : List Gray)
    (img : Gray) (h : renderFrame b fr = .ok img) :
    renderFrames b (fr :: rest) acc = renderFrames b rest (acc ++ [img]) := by
  have step : renderFrames b (fr :: rest) acc =
      (match renderFrame b fr with
        | .error p => .error p
        | .ok o => renderFrames b rest (acc ++ [o])) := rfl
  rw [step, h]

/-- The frame loop with remapping appends one raster per frame, in frame order. -/
theorem renderFrames_remap (frames : List Frame) :
    ∀ acc : List Gray,
      (∀ fr ∈ frames, fr.NativeData.WellFormed ∧ 0 < fr.NativeData.Cols ∧
        (fr.NativeData.Data.length : Int) = fr.NativeData.Rows * fr.NativeData.Cols ∧
        (∀ row ∈ fr.NativeData.Data, row ≠ []) ∧
        ∃ r1 ∈ fr.NativeData.Data, ∃ r2 ∈ fr.NativeData.Data, r1.head? ≠ r2.head?) →
      ∃ images, renderFrames true frames acc = .ok (acc ++ images) ∧
        List.Forall₂ (fun (fr : Frame) (img : Gray) =>
          img.Rect = Rect 0 0 fr.NativeData.Cols fr.NativeData.Rows ∧
          img.Stride = fr.NativeData.Cols ∧
          (img.Pix.length : Int) = fr.NativeData.Rows * fr.NativeData.Cols ∧
          ∀ (i : Nat) (row : List Int), fr.NativeData.Data[i]? = some row → ∃ v m, row.head? = some v ∧
            mapValue v (findBounds fr.NativeData) targetPixelDomain = .ok m ∧
            img.Pix[i]? = some (toUint8 m)) frames images := by
  induction frames with
  | nil =>
    intro acc _
    refine ⟨[], ?_, List.Forall₂.nil⟩
    rw [List.append_nil]
    rfl
  | cons fr rest ih =>
    intro acc h
    obtain ⟨hwf, hcols, hlen, hne, hdist⟩ := h fr (List.mem_cons_self _ _)
    obtain ⟨img, hrun, hspec⟩ := renderFrame_remap fr hwf hcols hlen hne hdist
    obtain ⟨images, hrest, hall⟩ :=
      ih (acc ++ [img]) (fun f hf => h f (List.mem_cons_of_mem _ hf))
    refine ⟨img :: images, ?_, List.Forall₂.cons hspec hall⟩
    have happ : acc ++ [img] ++ images = acc ++ img :: images := by
      rw [List.append_assoc]
      rfl
    rw [← happ, ← hrest]
    exact renderFrames_cons_ok true fr rest acc img hrun

/-- Claim C1: for a dataset whose PixelData element decodes to well-formed
frames with `Cols > 0`, `len(Data) = Rows * Cols`, no empty row and at least two
distinct channel-0 values per frame, `generateImage(dataset, true)` returns no
error and one raster per frame, in frame order; the raster of a frame has the
bounds `Rect(0, 0, Cols, Rows)`, stride `Cols` and `Rows * Cols` bytes, and byte
`i` is `uint8(mapValue(Data[i][0], findBounds(frame), {0,255}))`. -/
theorem generateImage_remap_spec (dataset : Dataset) (e : Element) (info : PixelDataInfo)
    (he : dataset.FindElementByTag Tag.PixelData = .ok e)
    (hv : e.Value = some (.pixelData info))
    (hframes : ∀ fr ∈ info.Frames, fr.NativeData.WellFormed ∧ 0 < fr.NativeData.Cols ∧
      (fr.NativeData.Data.length : Int) = fr.NativeData.Rows * fr.NativeData.Cols ∧
      (∀ row ∈ fr.NativeData.Data, row ≠ []) ∧
      ∃ r1 ∈ fr.NativeData.Data, ∃ r2 ∈ fr.NativeData.Data, r1.head? ≠ r2.head?) :
    ∃ images, generateImage dataset true = .ok (images, none) ∧
      List.Forall₂ (fun (fr : Frame) (img : Gray) =>
        img.Rect = Rect 0 0 fr.NativeData.Cols fr.NativeData.Rows ∧
        img.Stride = fr.NativeData.Cols ∧
        (img.Pix.length : Int) = fr.NativeData.Rows * fr.NativeData.Cols ∧
        ∀ (i : Nat) (row : List Int), fr.NativeData.Data[i]? = some row → ∃ v m, row.head? = some v ∧
          mapValue v (findBounds fr.NativeData) targetPixelDomain = .ok m ∧
          img.Pix[i]? = some (toUint8 m)) info.Frames images := by
  obtain ⟨images, hrun, hall⟩ := renderFrames_remap info.Frames [] hframes
  refine ⟨images, ?_, hall⟩
  rw [List.nil_append] at hrun
  unfold generateImage
  rw [he]
  simp only []
  rw [hv]
  unfold MustGetPixelDataInfo
  simp only []
  rw [hrun]


/-- Claim C1, witness of `generateImage_remap_spec`: the 2x2 frame with the
channel-0 values `0, 1, 3, 4` gives the bytes `0, 63, 191, 255`. -/
theorem generateImage_remap_spec_witness :
    generateImage validDataset true =
      .ok ([{ Pix := [0, 63, 191, 255], Stride := 2, Rect := Rect 0 0 2 2 }], none) ∧
    ∃ images, generateImage validDataset true = .ok (images, none) ∧
      List.Forall₂ (fun (fr : Frame) (img : Gray) =>
        img.Rect = Rect 0 0 fr.NativeData.Cols fr.NativeData.Rows ∧
        img.Stride = fr.NativeData.Cols ∧
        (img.Pix.length : Int) = fr.NativeData.Rows * fr.NativeData.Cols ∧
        ∀ (i : Nat) (row : List Int), fr.NativeData.Data[i]? = some row →
          ∃ v m, row.head? = some v ∧
            mapValue v (findBounds fr.NativeData) targetPixelDomain = .ok m ∧
            img.Pix[i]? = some (toUint8 m))
        [Frame.mk (NativeFrame.mk [[0], [1], [3], [4]] 2 2)] images :=
  ⟨by decide,
    generateImage_remap_spec validDataset
      (Element.mk Tag.PixelData (some (Value.pixelData (PixelDataInfo.mk
        [Frame.mk (NativeFrame.mk [[0], [1], [3], [4]] 2 2)]))))
      (PixelDataInfo.mk [Frame.mk (NativeFrame.mk [[0], [1], [3], [4]] 2 2)])
      (by decide) rfl (by decide)⟩

/-- Claim C7: for a dataset without an element tagged PixelData (the empty
dataset included) and either value of the remap flag, `generateImage` returns no
images and the error of the failed lookup. -/
theorem generateImage_no_pixelData (dataset : Dataset) (shouldRemap : Bool)
    (h : ∀ e ∈ dataset.Elements, e.Tag ≠ Tag.PixelData) :
    generateImage dataset shouldRemap = .ok ([], some .elementNotFound) := by
  have hfind : dataset.Elements.find? (fun e => decide (e.Tag = Tag.PixelData)) = none := by
    rw [List.find?_eq_none]
    intro e he
    simpa using h e he
  have hlookup : dataset.FindElementByTag Tag.PixelData = .error .elementNotFound := by
    unfold Dataset.FindElementByTag
    rw [hfind]
  unfold generateImage
  rw [hlookup]

/-- Claim C7, witness of `generateImage_no_pixelData`: the dataset with one
element tagged `(0000,0000)`. -/
theorem generateImage_no_pixelData_witness :
    (∀ e ∈ missingElementDataset.Elements, e.Tag ≠ Tag.PixelData) ∧
    generateImage missingElementDataset true = .ok ([], some .elementNotFound) ∧
    generateImage (Dataset.mk []) false = .ok ([], some .elementNotFound) :=
  ⟨by decide, generateImage_no_pixelData missingElementDataset true (by decide),
    generateImage_no_pixelData (Dataset.mk []) false (by decide)⟩

/-- Claim C8: for a dataset whose PixelData element carries a pixel-data
payload with zero frames and either value of the remap flag, `generateImage`
returns no error and an empty sequence of images. -/
theorem generateImage_zero_frames (dataset : Dataset) (shouldRemap : Bool) (e : Element)
    (info : PixelDataInfo)
    (he : dataset.FindElementByTag Tag.PixelData = .ok e)
    (hv : e.Value = some (.pixelData info)) (hf : info.Frames = []) :
    generateImage dataset shouldRemap = .ok ([], none) := by
  unfold generateImage
  rw [he]
  simp only []
  rw [hv]
  unfold MustGetPixelDataInfo
  simp only []
  rw [hf]
  rfl

/-- Claim C8, witness of `generateImage_zero_frames`: the dataset of the test
"returns no images for empty pixel element". -/
theorem generateImage_zero_frames_witness :
    generateImage emptyPixelDataset true = .ok ([], none) ∧
    generateImage emptyPixelDataset false = .ok ([], none) :=
  ⟨generateImage_zero_frames emptyPixelDataset true
      (Element.mk Tag.PixelData (some (Value.pixelData (PixelDataInfo.mk []))))
      (PixelDataInfo.mk []) (by decide) rfl rfl,
    generateImage_zero_frames emptyPixelDataset false
      (Element.mk Tag.PixelData (some (Value.pixelData (PixelDataInfo.mk []))))
      (PixelDataInfo.mk []) (by decide) rfl rfl⟩

/-! ## `File` -/

/-- With an empty cache slot every call of `DataSet()` on the file value `f`
runs the decoder: the value receiver keeps the cache write from reaching `f`. -/
theorem DataSet_parses_when_uncached (dec : Decoder) (f : File) (w : World)
    (h : f.cache.dataset = none) :
    (f.DataSet dec w).1.parseCalls = w.parseCalls + 1 := by
  unfold File.DataSet File.DataSetBody
  rw [h]
  rcases hp : dec.Parse w.stream f.size with ⟨rest, r⟩
  cases r <;> rfl

/-- Claim C9 fails on the code: on the file `NewFile("a", 3)` with a decoder
substitute that always succeeds, two calls of `DataSet()` on the same `File`
value both return the dataset and run the decoder twice. -/
theorem DataSet_twice_parses_twice :
    File.DataSetTwice (fixedDecoder validDataset) (NewFile "a" 3)
        { stream := [1, 2, 3], parseCalls := 0 } =
      ({ stream := [], parseCalls := 2 }, .ok validDataset, .ok validDataset) := by
  decide

/-! ### Go maps -/

theorem GoMap.get?_set_self {V : Type} (m : GoMap V) (k : String) (v : V) :
    GoMap.get? (GoMap.set m k v) k = some v := by
  induction m with
  | nil => simp [GoMap.set, GoMap.get?]
  | cons p rest ih =>
    obtain ⟨k', v'⟩ := p
    by_cases hk : k' = k
    · simp [GoMap.set, GoMap.get?, hk]
    · simp [GoMap.set, GoMap.get?, hk, ih]

theorem GoMap.get?_set_ne {V : Type} (m : GoMap V) (k k0 : String) (v : V) (hne : k0 ≠ k) :
    GoMap.get? (GoMap.set m k v) k0 = GoMap.get? m k0 := by
  induction m with
  | nil =>
    have : ¬ k = k0 := fun h => hne h.symm
    simp [GoMap.set, GoMap.get?, this]
  | cons p rest ih =>
    obtain ⟨k', v'⟩ := p
    by_cases hk : k' = k
    · have : ¬ k = k0 := fun h => hne h.symm
      have h2 : ¬ k' = k0 := by rw [hk]; exact this
      simp [GoMap.set, GoMap.get?, hk, this]
    · by_cases hk0 : k' = k0
      · subst hk0
        simp [GoMap.set, GoMap.get?, hk]
      · simp [GoMap.set, GoMap.get?, hk, hk0, ih]

theorem GoMap.mem_keys_set {V : Type} (m : GoMap V) (k k0 : String) (v : V) :
    k0 ∈ GoMap.keys (GoMap.set m k v) ↔ k0 = k ∨ k0 ∈ GoMap.keys m := by
  induction m with
  | nil => simp [GoMap.set, GoMap.keys]
  | cons p rest ih =>
    obtain ⟨k', v'⟩ := p
    by_cases hk : k' = k
    · simp [GoMap.set, GoMap.keys, hk]
    · simp only [GoMap.keys] at ih
      simp only [GoMap.set, GoMap.keys, hk, if_false, List.map_cons, List.mem_cons, ih]
      tauto

theorem GoMap.nodup_keys_set {V : Type} (m : GoMap V) (k : String) (v : V)
    (h : (GoMap.keys m).Nodup) : (GoMap.keys (GoMap.set m k v)).Nodup := by
  induction m with
  | nil => simp [GoMap.set, GoMap.keys]
  | cons p rest ih =>
    obtain ⟨k', v'⟩ := p
    have h' : k' ∉ GoMap.keys rest ∧ (GoMap.keys rest).Nodup := by
      simpa [GoMap.keys] using h
    by_cases hk : k' = k
    · subst hk
      simpa [GoMap.set, GoMap.keys] using h
    · have hmem := GoMap.mem_keys_set rest k k' v
      have hnot : k' ∉ GoMap.keys (GoMap.set rest k v) := by
        rw [hmem]
        intro hc
        rcases hc with hc | hc
        · exact hk hc
        · exact h'.1 hc
      have hnd := ih h'.2
      simp only [GoMap.keys] at hnot hnd
      simp only [GoMap.set, GoMap.keys, hk, if_false, List.map_cons, List.nodup_cons]
      exact ⟨hnot, hnd⟩

/-! ### Tag strings -/

theorem hexDigit_injective : ∀ a b : Fin 16, hexDigit a.val = hexDigit b.val → a = b := by
  decide

theorem hex4_injective (n m : Nat) (hn : n < 65536) (hm : m < 65536)
    (h : hex4 n = hex4 m) : n = m := by
  simp only [hex4, List.cons.injEq, and_true] at h
  obtain ⟨h3, h2, h1, h0⟩ := h
  have lt16 : ∀ x : Nat, x % 16 < 16 := fun x => Nat.mod_lt x (by decide)
  have e3 := congrArg Fin.val (hexDigit_injective ⟨_, lt16 (n / 4096)⟩ ⟨_, lt16 (m / 4096)⟩ h3)
  have e2 := congrArg Fin.val (hexDigit_injective ⟨_, lt16 (n / 256)⟩ ⟨_, lt16 (m / 256)⟩ h2)
  have e1 := congrArg Fin.val (hexDigit_injective ⟨_, lt16 (n / 16)⟩ ⟨_, lt16 (m / 16)⟩ h1)
  have e0 := congrArg Fin.val (hexDigit_injective ⟨_, lt16 n⟩ ⟨_, lt16 m⟩ h0)
  simp only at e3 e2 e1 e0
  omega

/-- Distinct tags have distinct canonical strings. -/
theorem Tag.String_injective (t u : Tag) (h : t.String = u.String) : t = u := by
  obtain ⟨g, e⟩ := t
  obtain ⟨g', e'⟩ := u
  have h := congrArg String.data h
  simp only [Tag.String, hex4, List.cons_append, List.nil_append, List.cons.injEq, true_and,
    and_true] at h
  obtain ⟨a3, a2, a1, a0, b3, b2, b1, b0⟩ := h
  have eg := hex4_injective _ _ g.isLt g'.isLt (by simp only [hex4, a3, a2, a1, a0])
  have ee := hex4_injective _ _ e.isLt e'.isLt (by simp only [hex4, b3, b2, b1, b0])
  rw [Fin.ext eg, Fin.ext ee]

/-! ### `FindElements` -/

/-- The element stored by one turn of the loop of `FindElements` is the first
element of the dataset with the tag, or nil. -/
theorem findElementsStep_eq (ds : Dataset) (m : DICOMElementsLookup) (t : Tag) :
    findElementsStep ds m t =
      GoMap.set m t.String (ds.Elements.find? (fun e => decide (e.Tag = t))) := by
  unfold findElementsStep Dataset.FindElementByTag
  cases ds.Elements.find? (fun e => decide (e.Tag = t)) <;> rfl

/-- The loop of `FindElements` from the map `m0`: the keys stay distinct, the
keys of the requested tags are added, the other entries are kept, and each
requested tag maps to the first element with that tag, or nil. -/
theorem foldl_findElementsStep (ds : Dataset) (tags : List Tag) :
    ∀ m0 : DICOMElementsLookup, (GoMap.keys m0).Nodup →
      (GoMap.keys (tags.foldl (findElementsStep ds) m0)).Nodup ∧
      (∀ k, k ∈ GoMap.keys (tags.foldl (findElementsStep ds) m0) ↔
        k ∈ GoMap.keys m0 ∨ ∃ t ∈ tags, k = t.String) ∧
      (∀ k, (∀ t ∈ tags, k ≠ t.String) →
        GoMap.get? (tags.foldl (findElementsStep ds) m0) k = GoMap.get? m0 k) ∧
      ∀ t ∈ tags, GoMap.get? (tags.foldl (findElementsStep ds) m0) t.String =
        some (ds.Elements.find? (fun e => decide (e.Tag = t))) := by
  induction tags with
  | nil =>
    intro m0 h0
    refine ⟨h0, ?_, ?_, ?_⟩
    · intro k
      simp
    · intro k _
      rfl
    · intro t ht
      exact absurd ht (List.not_mem_nil _)
  | cons t0 rest ih =>
    intro m0 h0
    have hstep := findElementsStep_eq ds m0 t0
    obtain ⟨hnd, hkeys, hkeep, hget⟩ :=
      ih (findElementsStep ds m0 t0) (by rw [hstep]; exact GoMap.nodup_keys_set m0 _ _ h0)
    simp only [List.foldl_cons]
    refine ⟨hnd, ?_, ?_, ?_⟩
    · intro k
      rw [hkeys k, hstep, GoMap.mem_keys_set]
      simp only [List.mem_cons, exists_eq_or_imp]
      tauto
    · intro k hk
      have hk0 : k ≠ t0.String := hk t0 (List.mem_cons_self _ _)
      rw [hkeep k (fun t ht => hk t (List.mem_cons_of_mem _ ht)), hstep]
      exact GoMap.get?_set_ne m0 _ k _ hk0
    · intro t ht
      by_cases hmem : t ∈ rest
      · exact hget t hmem
      · have ht0 : t = t0 := by
          rcases List.mem_cons.1 ht with h | h
          · exact h
          · exact absurd h hmem
        subst ht0
        have hne : ∀ u ∈ rest, t.String ≠ u.String := by
          intro u hu heq
          exact hmem (by rw [Tag.String_injective t u heq]; exact hu)
        rw [hkeep t.String hne, hstep]
        exact GoMap.get?_set_self m0 _ _

/-- Claim C10: for a file whose dataset decodes and every list of requested
tags, `FindElements` returns no error and a lookup whose keys are distinct and
are exactly the canonical strings of the requested tags; each requested tag maps
to the first element of the dataset that carries the tag, and to nil when the
dataset has no such element. -/
theorem FindElements_spec (dec : Decoder) (d : File) (tags : List Tag) (w w' : World)
    (ds : Dataset) (hds : d.DataSet dec w = (w', .ok ds)) :
    ∃ lookup : DICOMElementsLookup, d.FindElements dec tags w = (w', .ok lookup) ∧
      (GoMap.keys lookup).Nodup ∧
      (∀ k, k ∈ GoMap.keys lookup ↔ ∃ t ∈ tags, k = t.String) ∧
      ∀ t ∈ tags, GoMap.get? lookup t.String =
        some (ds.Elements.find? (fun e => decide (e.Tag = t))) := by
  obtain ⟨hnd, hkeys, _, hget⟩ := foldl_findElementsStep ds tags [] List.nodup_nil
  have hrun : d.FindElements dec tags w =
      (w', .ok (if tags.length > 0 then tags.foldl (findElementsStep ds) [] else [])) := by
    unfold File.FindElements
    rw [hds]
  have hif : (if tags.length > 0 then tags.foldl (findElementsStep ds) [] else []) =
      tags.foldl (findElementsStep ds) [] := by
    cases tags with
    | nil => rfl
    | cons t rest => simp
  rw [hif] at hrun
  refine ⟨_, hrun, hnd, ?_, hget⟩
  intro k
  rw [hkeys k]
  simp [GoMap.keys]

/-- Claim C10, witness of `FindElements_spec`: the tags `(7fe0,0010)`,
`(0000,0001)` and `(7fe0,0010)` again, on a file that decodes to the dataset with
one PixelData element. -/
theorem FindElements_spec_witness :
    ∃ lookup : DICOMElementsLookup,
      (NewFile "a" 3).FindElements (fixedDecoder validDataset)
          [Tag.PixelData, Tag.mk 0 1, Tag.PixelData] { stream := [1, 2, 3], parseCalls := 0 } =
        ({ stream := [], parseCalls := 1 }, .ok lookup) ∧
      (GoMap.keys lookup).Nodup ∧
      (∀ k, k ∈ GoMap.keys lookup ↔
        ∃ t ∈ [Tag.PixelData, Tag.mk 0 1, Tag.PixelData], k = t.String) ∧
      ∀ t ∈ [Tag.PixelData, Tag.mk 0 1, Tag.PixelData], GoMap.get? lookup t.String =
        some (validDataset.Elements.find? (fun e => decide (e.Tag = t))) :=
  FindElements_spec (fixedDecoder validDataset) (NewFile "a" 3)
    [Tag.PixelData, Tag.mk 0 1, Tag.PixelData] { stream := [1, 2, 3], parseCalls := 0 }
    { stream := [], parseCalls := 1 } validDataset (by decide)

/-! ## `parseTag` and `parseTagQuery` -/

theorem hexDigit_props : ∀ d : Fin 16,
    hexVal (hexDigit d.val) = some d.val ∧ hexDigit d.val ≠ ',' ∧ hexDigit d.val ≠ '+' ∧
      hexDigit d.val ≠ '-' ∧ ['(', ')'].contains (hexDigit d.val) = false := by
  decide

theorem parseUintLoop_cons_digit (d : Fin 16) (cs : List Char) (n : Nat)
    (hn : n < 1152921504606846976) :
    parseUintLoop (hexDigit d.val :: cs) n = parseUintLoop cs (n * 16 + d.val) := by
  have hv := (hexDigit_props d).1
  have hlt : ¬ n ≥ 1152921504606846976 := by omega
  simp only [parseUintLoop, hv, hlt, if_false]

/-- The padded text `%04x` is a hexadecimal text of its value. -/
theorem hex4_hexText (n : Nat) (hn : n < 65536) : HexText (hex4 n) n := by
  have lt16 : ∀ x : Nat, x % 16 < 16 := fun x => Nat.mod_lt x (by decide)
  refine ⟨by simp [hex4], ?_, ?_, hn⟩
  · intro c hc
    simp only [hex4, List.mem_cons, List.mem_singleton, List.not_mem_nil, or_false] at hc
    rcases hc with h | h | h | h
    · exact ⟨⟨_, lt16 (n / 4096)⟩, h⟩
    · exact ⟨⟨_, lt16 (n / 256)⟩, h⟩
    · exact ⟨⟨_, lt16 (n / 16)⟩, h⟩
    · exact ⟨⟨_, lt16 n⟩, h⟩
  · have s3 := parseUintLoop_cons_digit ⟨_, lt16 (n / 4096)⟩
      [hexDigit (n / 256 % 16), hexDigit (n / 16 % 16), hexDigit (n % 16)] 0 (by omega)
    have s2 := parseUintLoop_cons_digit ⟨_, lt16 (n / 256)⟩
      [hexDigit (n / 16 % 16), hexDigit (n % 16)] (0 * 16 + n / 4096 % 16) (by omega)
    have s1 := parseUintLoop_cons_digit ⟨_, lt16 (n / 16)⟩
      [hexDigit (n % 16)] ((0 * 16 + n / 4096 % 16) * 16 + n / 256 % 16) (by omega)
    have s0 := parseUintLoop_cons_digit ⟨_, lt16 n⟩
      [] (((0 * 16 + n / 4096 % 16) * 16 + n / 256 % 16) * 16 + n / 16 % 16) (by omega)
    simp only at s3 s2 s1 s0
    unfold hex4
    rw [s3, s2, s1, s0]
    simp only [parseUintLoop]
    congr 1
    omega

/-- Leading zeros do not change what the digit loop reads from zero. -/
theorem parseUintLoop_dropWhile_zero (l : List Char) :
    parseUintLoop (l.dropWhile (fun c => c == '0')) 0 = parseUintLoop l 0 := by
  induction l with
  | nil => rfl
  | cons c cs ih =>
    by_cases hc : c = '0'
    · subst hc
      have h := parseUintLoop_cons_digit ⟨0, by decide⟩ cs 0 (by decide)
      have hd : hexDigit 0 = '0' := by decide
      simp only [hd, Nat.zero_mul, Nat.add_zero] at h
      rw [h, ← ih]
      simp
    · have e : List.dropWhile (fun c => c == '0') (c :: cs) = c :: cs := by
        simp [List.dropWhile_cons, hc]
      rw [e]

/-- The unpadded text `%x` is a hexadecimal text of its value. -/
theorem hexUnpadded_hexText (n : Nat) (hn : n < 65536) : HexText (hexUnpadded n) n := by
  obtain ⟨_, hdig, hval, _⟩ := hex4_hexText n hn
  have hdrop := parseUintLoop_dropWhile_zero (hex4 n)
  rw [hval] at hdrop
  unfold hexUnpadded
  cases hl : (hex4 n).dropWhile (fun c => c == '0') with
  | nil =>
    rw [hl] at hdrop
    refine ⟨by simp, ?_, ?_, hn⟩
    · intro c hc
      exact ⟨⟨0, by decide⟩, by simpa using hc⟩
    · have h0 : n = 0 := by
        have : (Except.ok 0 : Except GoError Nat) = .ok n := hdrop
        injection this with h
        exact h.symm
      subst h0
      decide
  | cons c cs =>
    rw [hl] at hdrop
    refine ⟨by simp, ?_, hdrop, hn⟩
    intro x hx
    have hsub : x ∈ (hex4 n).dropWhile (fun c => c == '0') := by rw [hl]; exact hx
    exact hdig x ((List.dropWhile_sublist _).subset hsub)

theorem dropWhile_cons_true {α : Type} (p : α → Bool) (a : α) (l : List α) (h : p a = true) :
    (a :: l).dropWhile p = l.dropWhile p := by
  simp [List.dropWhile_cons, h]

theorem dropWhile_cons_false {α : Type} (p : α → Bool) (a : α) (l : List α)
    (h : p a = false) : (a :: l).dropWhile p = a :: l := by
  simp [List.dropWhile_cons, h]

theorem stringsSplit_cons_ne (c : Char) (cs : List Char) (sep : Char) (h : c ≠ sep) :
    stringsSplit (c :: cs) sep =
      (match stringsSplit cs sep with
        | [] => [[c]]
        | p :: ps => (c :: p) :: ps) := by
  have step : stringsSplit (c :: cs) sep =
      (if c = sep then [] :: stringsSplit cs sep
        else match stringsSplit cs sep with
          | [] => [[c]]
          | p :: ps => (c :: p) :: ps) := rfl
  rw [step, if_neg h]

/-- Go's `strings.Trim` with the cutset `()` on a text in parentheses whose
first and last characters are no parentheses. -/
theorem stringsTrim_parens (x y : Char) (r1 r2 body : List Char)
    (h1 : body = x :: r1) (h2 : body.reverse = y :: r2)
    (hx : ['(', ')'].contains x = false) (hy : ['(', ')'].contains y = false) :
    stringsTrim (['('] ++ body ++ [')']) ['(', ')'] = body := by
  have hopen : ['(', ')'].contains '(' = true := by decide
  have hclose : ['(', ')'].contains ')' = true := by decide
  unfold stringsTrim
  have e1 : (['('] ++ body ++ [')']).dropWhile (fun c => ['(', ')'].contains c) =
      body ++ [')'] := by
    rw [h1]
    have e0 : ['('] ++ x :: r1 ++ [')'] = '(' :: x :: (r1 ++ [')']) := rfl
    rw [e0, dropWhile_cons_true _ _ _ hopen, dropWhile_cons_false _ _ _ hx]
    rfl
  rw [e1]
  have e2 : (body ++ [')']).reverse = ')' :: y :: r2 := by
    rw [List.reverse_append, h2]
    rfl
  have e3 : (')' :: y :: r2).dropWhile (fun c => ['(', ')'].contains c) = y :: r2 := by
    rw [dropWhile_cons_true _ _ _ hclose, dropWhile_cons_false _ _ _ hy]
  rw [e2, e3, ← h2, List.reverse_reverse]

theorem stringsSplit_no_sep (a : List Char) (sep : Char) (h : ∀ c ∈ a, c ≠ sep) :
    stringsSplit a sep = [a] := by
  induction a with
  | nil => rfl
  | cons c cs ih =>
    have hc : c ≠ sep := h c (List.mem_cons_self _ _)
    have ih' := ih (fun x hx => h x (List.mem_cons_of_mem _ hx))
    rw [stringsSplit_cons_ne c cs sep hc, ih']

theorem stringsSplit_append (a b : List Char) (sep : Char) (h : ∀ c ∈ a, c ≠ sep) :
    stringsSplit (a ++ sep :: b) sep = a :: stringsSplit b sep := by
  induction a with
  | nil => simp [stringsSplit]
  | cons c cs ih =>
    have hc : c ≠ sep := h c (List.mem_cons_self _ _)
    have ih' := ih (fun x hx => h x (List.mem_cons_of_mem _ hx))
    rw [List.cons_append, stringsSplit_cons_ne c _ sep hc, ih']

/-- Go's `strconv.ParseInt(s, 16, 0)` reads a hexadecimal text of `n` as `n`. -/
theorem ParseInt_hexText (a : List Char) (n : Nat) (h : HexText a n) :
    ParseInt a = .ok (n : Int) := by
  obtain ⟨hne, hdig, hval, hn⟩ := h
  cases a with
  | nil => exact absurd rfl hne
  | cons c rest =>
    obtain ⟨d, hd⟩ := hdig c (List.mem_cons_self _ _)
    obtain ⟨_, _, hplus, hminus, _⟩ := hexDigit_props d
    rw [← hd] at hplus hminus
    have hsign : ¬ (c = '+' ∨ c = '-') := by
      intro hc
      rcases hc with hc | hc
      · exact hplus hc
      · exact hminus hc
    have hu : ParseUint (c :: rest) = .ok n := by
      unfold ParseUint
      simp only [List.cons_ne_nil, if_false, reduceCtorEq]
      exact hval
    have hr1 : ¬ n ≥ 9223372036854775808 := by omega
    unfold ParseInt
    simp only []
    rw [if_neg hsign, hu]
    simp [hminus, hr1]

theorem toUint16_cast (g : Fin 65536) : toUint16 (g.val : Int) = g := by
  apply Fin.ext
  have := g.isLt
  simp only [toUint16]
  omega

/-- The function `parseTag` on the text `(a,b)` of two hexadecimal texts. -/
theorem parseTag_hexTexts (a b : List Char) (g e : Fin 65536)
    (ha : HexText a g.val) (hb : HexText b e.val) :
    parseTag (String.mk (['('] ++ a ++ [','] ++ b ++ [')'])) = .ok { Group := g, Element := e } := by
  have hpa := ParseInt_hexText a g.val ha
  have hpb := ParseInt_hexText b e.val hb
  obtain ⟨hane, hadig, _, _⟩ := ha
  obtain ⟨hbne, hbdig, _, _⟩ := hb
  have nocomma : ∀ l : List Char, (∀ c ∈ l, ∃ d : Fin 16, c = hexDigit d.val) →
      ∀ c ∈ l, c ≠ ',' := by
    intro l hl c hc
    obtain ⟨d, hd⟩ := hl c hc
    rw [hd]
    exact (hexDigit_props d).2.1
  have noparen : ∀ l : List Char, (∀ c ∈ l, ∃ d : Fin 16, c = hexDigit d.val) →
      ∀ c ∈ l, ['(', ')'].contains c = false := by
    intro l hl c hc
    obtain ⟨d, hd⟩ := hl c hc
    rw [hd]
    exact (hexDigit_props d).2.2.2.2
  cases a with
  | nil => exact absurd rfl hane
  | cons x a' =>
    cases hbr : b.reverse with
    | nil =>
      have : b = [] := by simpa using hbr
      exact absurd this hbne
    | cons y b' =>
      have hy : y ∈ b := by
        have : y ∈ b.reverse := by rw [hbr]; exact List.mem_cons_self _ _
        simpa using this
      have hbody : ((x :: a') ++ [','] ++ b).reverse = y :: (b' ++ ',' :: (x :: a').reverse) := by
        simp [hbr]
      have htrim := stringsTrim_parens x y (a' ++ [','] ++ b) _ ((x :: a') ++ [','] ++ b)
        (by simp) hbody (noparen _ hadig x (List.mem_cons_self _ _)) (noparen _ hbdig y hy)
      have hshape : ['('] ++ (x :: a') ++ [','] ++ b ++ [')'] =
          ['('] ++ ((x :: a') ++ [','] ++ b) ++ [')'] := by simp
      have hsplit : stringsSplit ((x :: a') ++ [','] ++ b) ',' = [x :: a', b] := by
        have := stringsSplit_append (x :: a') b ',' (nocomma _ hadig)
        rw [stringsSplit_no_sep b ',' (nocomma _ hbdig)] at this
        simpa using this
      unfold parseTag
      simp only [hshape, htrim, hsplit, hpa, hpb, toUint16_cast]

/-- The loop of `parseTagQuery` over texts that are the padded or unpadded forms
of the tags `tags`. -/
theorem parseTag_forms (t : Tag) :
    parseTag t.String = .ok t ∧ parseTag (unpaddedTagString t) = .ok t := by
  obtain ⟨g, e⟩ := t
  exact ⟨parseTag_hexTexts _ _ g e (hex4_hexText _ g.isLt) (hex4_hexText _ e.isLt),
    parseTag_hexTexts _ _ g e (hexUnpadded_hexText _ g.isLt) (hexUnpadded_hexText _ e.isLt)⟩

theorem parseTagQueryLoop_forms (tags : List Tag) :
    ∀ (texts : List String) (acc : List Tag),
      List.Forall₂ (fun (t : Tag) (s : String) => s = t.String ∨ s = unpaddedTagString t)
        tags texts →
      parseTagQueryLoop texts acc = .ok (acc ++ tags) := by
  induction tags with
  | nil =>
    intro texts acc h
    cases h
    simp [parseTagQueryLoop]
  | cons t rest ih =>
    intro texts acc h
    obtain ⟨s, texts', hs, hrest, rfl⟩ := List.forall₂_cons_left_iff.1 h
    have hp : parseTag s = .ok t := by
      rcases hs with hs | hs
      · rw [hs]; exact (parseTag_forms t).1
      · rw [hs]; exact (parseTag_forms t).2
    have step : parseTagQueryLoop (s :: texts') acc =
        (match parseTag s with
          | .error err => .error err
          | .ok tag => parseTagQueryLoop texts' (acc ++ [tag])) := rfl
    rw [step, hp]
    simp only []
    rw [ih _ _ hrest, List.append_assoc]
    rfl

/-- Claim C11: for every list of tags and a query whose `tag` values are, in
order, the texts `(group,element)` of those tags in hexadecimal, each padded to
four digits or unpadded, `parseTagQuery` returns no error and exactly those tags
in the same order; `parseTag` inverts both text forms of every tag. -/
theorem parseTagQuery_roundtrip (tags : List Tag) (texts : List String)
    (query : GoMap (List String))
    (hq : GoMap.get? query tagQueryParamKey = some texts)
    (hforms : List.Forall₂
      (fun (t : Tag) (s : String) => s = t.String ∨ s = unpaddedTagString t) tags texts) :
    parseTagQuery query = .ok tags ∧
      ∀ t : Tag, parseTag t.String = .ok t ∧ parseTag (unpaddedTagString t) = .ok t := by
  refine ⟨?_, parseTag_forms⟩
  unfold parseTagQuery
  rw [hq]
  have := parseTagQueryLoop_forms tags texts [] hforms
  simpa using this

/-- Claim C11, witness of `parseTagQuery_roundtrip`: the unpadded texts `(0,1)`,
`(5,2)` and the padded texts `(0000,0001)`, `(0005,0002)` both give the tags
`{0,1}` and `{5,2}`. -/
theorem parseTagQuery_roundtrip_witness :
    parseTagQuery [("tag", ["(0,1)", "(5,2)"])] = .ok [Tag.mk 0 1, Tag.mk 5 2] ∧
    parseTagQuery [("tag", ["(0000,0001)", "(0005,0002)"])] = .ok [Tag.mk 0 1, Tag.mk 5 2] :=
  ⟨(parseTagQuery_roundtrip [Tag.mk 0 1, Tag.mk 5 2] ["(0,1)", "(5,2)"]
      [("tag", ["(0,1)", "(5,2)"])] (by decide)
      (List.Forall₂.cons (Or.inr (by decide))
        (List.Forall₂.cons (Or.inr (by decide)) List.Forall₂.nil))).1,
    (parseTagQuery_roundtrip [Tag.mk 0 1, Tag.mk 5 2] ["(0000,0001)", "(0005,0002)"]
      [("tag", ["(0000,0001)", "(0005,0002)"])] (by decide)
      (List.Forall₂.cons (Or.inl (by decide))
        (List.Forall₂.cons (Or.inl (by decide)) List.Forall₂.nil))).1⟩

/-! ## Faults of `mapValue` and `generateImage` -/

theorem wrapInt_inInt (x : Int) : inInt (wrapInt x) := by
  unfold inInt wrapInt
  omega

/-- Claim C12: for in-range source bounds, every value and every target,
`mapValue` panics with an integer division by zero exactly when
`source.max = source.min`, and for `source.min ≠ source.max` it returns a value
of `int`. -/
theorem mapValue_faults_iff (v : Int) (s t : domain1D)
    (hsmin : inInt s.min) (hsmax : inInt s.max) :
    (mapValue v s t = .error .divideByZero ↔ s.max = s.min) ∧
    (s.max ≠ s.min → ∃ r, mapValue v s t = .ok r ∧ inInt r) := by
  have hok : s.max ≠ s.min → ∃ r, mapValue v s t = .ok r ∧ inInt r := by
    intro hne
    have hsR : wrapInt (s.max - s.min) ≠ 0 :=
      wrapInt_sub_ne_zero hsmin hsmax (fun h => hne h.symm)
    unfold mapValue
    simp only [goDiv, hsR, if_false]
    exact ⟨_, rfl, wrapInt_inInt _⟩
  refine ⟨⟨?_, ?_⟩, hok⟩
  · intro herr
    by_contra hne
    obtain ⟨r, hr, _⟩ := hok hne
    rw [hr] at herr
    cases herr
  · intro heq
    have h0 : wrapInt (s.max - s.min) = 0 := by
      rw [heq, Int.sub_self]
      decide
    unfold mapValue
    simp only [goDiv, h0, if_true]

/-- Claim C12, witness of `mapValue_faults_iff`: the source `{5,5}` faults and
the source `{0,5}` returns. -/
theorem mapValue_faults_iff_witness :
    mapValue 6 ⟨5, 5⟩ ⟨0, 255⟩ = .error .divideByZero ∧
    ∃ r, mapValue 6 ⟨0, 5⟩ ⟨0, 255⟩ = .ok r ∧ inInt r :=
  ⟨(mapValue_faults_iff 6 ⟨5, 5⟩ ⟨0, 255⟩ (by decide) (by decide)).1.2 rfl,
    (mapValue_faults_iff 6 ⟨0, 5⟩ ⟨0, 255⟩ (by decide) (by decide)).2 (by decide)⟩

/-- With an inverted source the clamp of `mapValue` ends at `source.max` for
every value. -/
theorem mapValue_inverted_eq (v : Int) (s t : domain1D) (hinv : s.max < s.min) :
    mapValue v s t =
      match goDiv (wrapInt (wrapInt (t.max - t.min) * wrapInt (s.max - s.min)))
          (wrapInt (s.max - s.min)) with
      | .error p => .error p
      | .ok q => .ok (wrapInt (t.min + q)) := by
  unfold mapValue
  by_cases h1 : v < s.min
  · have h2 : s.min > s.max := hinv
    simp only [h1, h2, if_true]
  · have h2 : v > s.max := by omega
    simp only [h1, h2, if_true, if_false]

/-- Claim C13, as amended: for an inverted source interval
(`source.max < source.min`) the clamp replaces every value by `source.max`, so
`mapValue(v, source, target) = mapValue(source.max, source, target)` for every
`v`; for in-range bounds with
`|target.max - target.min| * (source.min - source.max)` fitting in `int` this
value is `target.max`. -/
theorem mapValue_inverted_source (v : Int) (s t : domain1D) (hinv : s.max < s.min) :
    mapValue v s t = mapValue s.max s t ∧
    (inInt s.min → inInt s.max → inInt t.min → inInt t.max →
      |t.max - t.min| * (s.min - s.max) < 9223372036854775808 →
      mapValue v s t = .ok t.max) := by
  refine ⟨by rw [mapValue_inverted_eq v s t hinv, mapValue_inverted_eq s.max s t hinv], ?_⟩
  intro hsmin hsmax htmin htmax hno
  rw [mapValue_inverted_eq v s t hinv]
  have hsR : wrapInt (s.max - s.min) ≠ 0 := wrapInt_sub_ne_zero hsmin hsmax (by omega)
  by_cases htR : t.max - t.min = 0
  · have h0 : wrapInt 0 = 0 := by decide
    simp only [htR, h0, Int.zero_mul, goDiv, hsR, if_false, Int.zero_tdiv, Int.add_zero]
    rw [wrapInt_eq_self htmin]
    congr 1
    omega
  · have habs : 1 ≤ |t.max - t.min| := Int.one_le_abs htR
    have hd : 1 ≤ s.min - s.max := by omega
    have hdlt : s.min - s.max < 9223372036854775808 := by nlinarith
    have htRlt : |t.max - t.min| < 9223372036854775808 := by nlinarith
    have hhi : t.max - t.min < 9223372036854775808 :=
      lt_of_le_of_lt (le_abs_self _) htRlt
    have hlo : -9223372036854775808 < t.max - t.min :=
      lt_of_lt_of_le (by omega) (neg_abs_le _)
    unfold inInt at hsmin hsmax htmin htmax
    have e1 : wrapInt (t.max - t.min) = t.max - t.min := by
      apply wrapInt_eq_self; unfold inInt; omega
    have e2 : wrapInt (s.max - s.min) = s.max - s.min := by
      apply wrapInt_eq_self; unfold inInt; omega
    have e3 : wrapInt ((t.max - t.min) * (s.max - s.min)) =
        (t.max - t.min) * (s.max - s.min) := by
      apply wrapInt_eq_self
      unfold inInt
      have hneg : (t.max - t.min) * (s.max - s.min) = -((t.max - t.min) * (s.min - s.max)) := by
        ring
      rcases abs_cases (t.max - t.min) with ⟨h, _⟩ | ⟨h, _⟩
      · rw [h] at hno
        have : 0 ≤ (t.max - t.min) * (s.min - s.max) := Int.mul_nonneg (by omega) (by omega)
        omega
      · rw [h] at hno
        have hp : -(t.max - t.min) * (s.min - s.max) = -((t.max - t.min) * (s.min - s.max)) := by
          ring
        have : 0 ≤ -(t.max - t.min) * (s.min - s.max) := Int.mul_nonneg (by omega) (by omega)
        omega
    have hne : s.max - s.min ≠ 0 := by omega
    have e4 : ((t.max - t.min) * (s.max - s.min)).tdiv (s.max - s.min) = t.max - t.min :=
      Int.mul_tdiv_cancel _ hne
    have e5 : wrapInt (t.min + (t.max - t.min)) = t.max := by
      rw [wrapInt_eq_self (by unfold inInt; omega)]
      omega
    simp only [e1, e2, e3, goDiv, hne, if_false, e4, e5]

/-- Claim C13, witness of `mapValue_inverted_source`: source `{5,0}`, target
`{0,10}`, value `3`. -/
theorem mapValue_inverted_source_witness :
    (0 : Int) < 5 ∧ mapValue 3 ⟨5, 0⟩ ⟨0, 10⟩ = mapValue 0 ⟨5, 0⟩ ⟨0, 10⟩ ∧
    mapValue 3 ⟨5, 0⟩ ⟨0, 10⟩ = .ok 10 :=
  ⟨by decide, (mapValue_inverted_source 3 ⟨5, 0⟩ ⟨0, 10⟩ (by decide)).1,
    (mapValue_inverted_source 3 ⟨5, 0⟩ ⟨0, 10⟩ (by decide)).2 (by decide) (by decide)
      (by decide) (by decide) (by decide)⟩

/-- Claim C13 as stated fails: with the inverted source `{5,0}`, the target
`{0,10}` and the value `3` the clamp changes the value (to `source.max = 0`) and
`mapValue` returns `10`, while the formula of the claim on the unclamped value,
`0 + (10 - 0) * (3 - 5) / (0 - 5)`, is `4`. -/
theorem mapValue_inverted_source_counterexample :
    (0 : Int) < 5 ∧ mapValue 3 ⟨5, 0⟩ ⟨0, 10⟩ = .ok 10 ∧
    (0 : Int) + (((10 : Int) - 0) * (3 - 5)).tdiv (0 - 5) = 4 ∧
    mapValue 3 ⟨5, 0⟩ ⟨0, 10⟩ ≠ .ok ((0 : Int) + (((10 : Int) - 0) * (3 - 5)).tdiv (0 - 5)) := by
  decide

/-- Claim C14, as amended: for in-range source bounds with `min < max` and
`255 * (source.max - source.min)` fitting in `int`, and every value `v`, inside
or outside the source interval, `mapValue(v, source, {0,255})` returns a value
`r` with `0 ≤ r ≤ 255`, which the conversion `uint8(r)` leaves as it is. -/
theorem mapValue_pixel_range (v : Int) (s : domain1D)
    (hsmin : inInt s.min) (hsmax : inInt s.max) (hs : s.min < s.max)
    (hno : 255 * (s.max - s.min) < 9223372036854775808) :
    ∃ r, mapValue v s targetPixelDomain = .ok r ∧ 0 ≤ r ∧ r ≤ 255 ∧
      (toUint8 r : Int) = r := by
  have key : ∀ c : Int, s.min ≤ c → c ≤ s.max →
      ∃ r, mapValue c s targetPixelDomain = .ok r ∧ 0 ≤ r ∧ r ≤ 255 ∧ (toUint8 r : Int) = r := by
    intro c hc1 hc2
    have hex := mapValue_exact c s targetPixelDomain hs hsmin hsmax (by decide) (by decide)
      hc1 hc2 (by
        have : |targetPixelDomain.max - targetPixelDomain.min| = 255 := by decide
        rw [this]
        exact hno)
    have hb := (tdiv_scaled_between (r := targetPixelDomain.max - targetPixelDomain.min)
      (d := c - s.min) (c := s.max - s.min) (by omega) (by omega) (by omega)).1 (by decide)
    have h255 : targetPixelDomain.max - targetPixelDomain.min = 255 := by decide
    have hmin0 : targetPixelDomain.min = 0 := rfl
    rw [h255] at hb
    rw [h255, hmin0] at hex
    refine ⟨_, hex, by omega, by omega, ?_⟩
    unfold toUint8
    omega
  rcases lt_or_le v s.min with h1 | h1
  · rw [mapValue_below v s _ h1]
    exact key s.min (le_refl _) hs.le
  · rcases lt_or_le s.max v with h2 | h2
    · rw [mapValue_above v s _ h2]
      exact key s.max hs.le (le_refl _)
    · exact key v h1 h2

/-- Claim C14, witness of `mapValue_pixel_range`: source `{0,4}`, value `3`. -/
theorem mapValue_pixel_range_witness :
    (0 : Int) < 4 ∧ ∃ r, mapValue 3 ⟨0, 4⟩ targetPixelDomain = .ok r ∧ 0 ≤ r ∧ r ≤ 255 ∧
      (toUint8 r : Int) = r :=
  ⟨by decide, mapValue_pixel_range 3 ⟨0, 4⟩ (by decide) (by decide) (by decide) (by decide)⟩

/-- Claim C14 as stated fails: with the source `{0,2^62}` (in range,
`min < max`) and the value `2^62` the product `255 * 2^62` overflows `int` and
`mapValue(v, source, {0,255})` is `-1`, below `0`. -/
theorem mapValue_pixel_range_counterexample :
    (inInt 0 ∧ inInt 4611686018427387904) ∧ (0 : Int) < 4611686018427387904 ∧
    mapValue 4611686018427387904 ⟨0, 4611686018427387904⟩ targetPixelDomain = .ok (-1) ∧
    ¬ ((0 : Int) ≤ -1) := by
  decide

end Dicom
